import Mathlib

/-!
Verification development for the FFCx integral generator
(`ffcx/codegeneration/integral_generator.py`).

The Python module is shallowly embedded: the mutable `IntegralGenerator`
instance becomes an explicit `GenState` threaded through pure functions,
Python exceptions (RuntimeError / AssertionError / IndexError / KeyError)
become `Except String`, UFL expression nodes and LNodes target-language
expressions become inductive types.  Collaborator code that is not part of
the sources under verification (the `lnodes` expression library, the
`definitions`/`access` backend, the structural optimizer, UFL constants) is
modelled from the specification's interface contracts; every such
definition carries a doc comment starting with "Modelled from the spec".
-/

namespace FFCxGen

/-! ### Generic helpers: Python-style containers -/

/-- Python list indexing `l[i]`: returns the element or fails like an
`IndexError` would. -/
def pyGet (l : List α) (i : Nat) : Except String α :=
  match l[i]? with
  | some x => .ok x
  | none => .error "IndexError: list index out of range"

/-- Association-list lookup (Python `dict.get`). -/
def alookup [DecidableEq κ] (l : List (κ × β)) (k : κ) : Option β :=
  match l with
  | [] => none
  | (k', v) :: rest => if k' = k then some v else alookup rest k

/-- Association-list store (Python `dict.__setitem__`): overwriting keeps the
key's original position, a new key is appended, matching the insertion order
of a Python dict. -/
def aupdate [DecidableEq κ] (l : List (κ × β)) (k : κ) (v : β) : List (κ × β) :=
  match l with
  | [] => [(k, v)]
  | (k', v') :: rest => if k' = k then (k, v) :: rest else (k', v') :: aupdate rest k v

/-- Append a value to the list held at key `k` (Python
`collections.defaultdict(list)` item append); a fresh key is appended at the
end, preserving dict insertion order. -/
def gappend [DecidableEq κ] (l : List (κ × List β)) (k : κ) (v : β) : List (κ × List β) :=
  match l with
  | [] => [(k, [v])]
  | (k', vs) :: rest => if k' = k then (k', vs ++ [v]) :: rest else (k', vs) :: gappend rest k v

/-- Deduplication modelling Python `list(set(...))` (whose iteration order
is unspecified); membership is what matters downstream. -/
def pyDedup [DecidableEq α] : List α → List α
  | [] => []
  | x :: xs =>
      let r := pyDedup xs
      if x ∈ r then r else x :: r

/-- Stable insertion of `x` after every already-present element `y` with
`le y x`. -/
def insertSorted (le : α → α → Bool) (x : α) : List α → List α
  | [] => [x]
  | y :: ys => if le y x then y :: insertSorted le x ys else x :: y :: ys

/-- Stable sort matching Python's `sorted` (insertion sort; elements are
inserted in original order, each after previously inserted equals). -/
def pySorted (le : α → α → Bool) (l : List α) : List α :=
  l.foldl (fun acc x => insertSorted le x acc) []

/-- Lexicographic comparison of character lists by Unicode code point,
matching Python string comparison. -/
def charListLe : List Char → List Char → Bool
  | [], _ => true
  | _ :: _, [] => false
  | a :: as, b :: bs =>
      if a.val < b.val then true
      else if b.val < a.val then false
      else charListLe as bs

/-- Python string `<=`, by code points. -/
def strLe (a b : String) : Bool := charListLe a.data b.data

/-- Lexicographic `<=` on integer lists (Python tuple comparison). -/
def intListLe : List Int → List Int → Bool
  | [], _ => true
  | _ :: _, [] => false
  | a :: as, b :: bs =>
      if a < b then true
      else if b < a then false
      else intListLe as bs

/-- Lexicographic `<=` on lists of integer lists (Python comparison of
tuples of tuples). -/
def intListListLe : List (List Int) → List (List Int) → Bool
  | [], _ => true
  | _ :: _, [] => false
  | a :: as, b :: bs =>
      if intListLe a b ∧ ¬ intListLe b a then true
      else if intListLe b a ∧ ¬ intListLe a b then false
      else intListListLe as bs

/-- Decidable equality of `Except` results, for evaluating the embedding on
concrete inputs. -/
instance {e a : Type} [DecidableEq e] [DecidableEq a] : DecidableEq (Except e a) := fun
  | .error x, .error y =>
      if h : x = y then .isTrue (by rw [h]) else .isFalse (by intro hh; cases hh; exact h rfl)
  | .error _, .ok _ => .isFalse (by intro h; cases h)
  | .ok _, .error _ => .isFalse (by intro h; cases h)
  | .ok x, .ok y =>
      if h : x = y then .isTrue (by rw [h]) else .isFalse (by intro hh; cases hh; exact h rfl)

/-! ### Target-language (LNodes) data model -/

/-- Scalar data types of the LNodes expression language (`lnodes.DataType`). -/
inductive DataType where
  | BOOL
  | INT
  | REAL
  | SCALAR
deriving DecidableEq

mutual
/-- Target-language expressions: the subset of the LNodes expression
language constructed by the integral generator.  `pyNone` models the Python
value `None` when it flows into an expression or statement position (the
backend's optional definition). -/
inductive LExpr where
  | sym (name : String) (dtype : DataType)
  | litInt (n : Int)
  | litFloat (v : Int)
  | add (a b : LExpr)
  | mul (a b : LExpr)
  | prod (factors : LArgs)
  | arrayAccess (arr : LExpr) (index : LExpr)
  | multiIndex (ixs : LArgs) (sizes : List Nat)
  | uflOp (handler : String) (args : LArgs)
deriving DecidableEq

/-- Lists of `LExpr` (spelled out so that equality can be derived). -/
inductive LArgs where
  | nil
  | cons (head : LExpr) (tail : LArgs)
deriving DecidableEq
end

def LArgs.ofList : List LExpr → LArgs
  | [] => .nil
  | e :: es => .cons e (LArgs.ofList es)

def LArgs.toList : LArgs → List LExpr
  | .nil => []
  | .cons e es => e :: LArgs.toList es

/-- Predicate for `isinstance(e, L.Product)`. -/
def LExpr.isProduct : LExpr → Bool
  | .prod _ => true
  | _ => false

/-- Predicate for `isinstance(e, L.Symbol)`. -/
def LExpr.isSym : LExpr → Bool
  | .sym _ _ => true
  | _ => false

/-- Literal `1` factors (Python `1` or LNodes unit literal), simplified away
by `float_product`. -/
def LExpr.isOne : LExpr → Bool
  | .litInt 1 => true
  | .litFloat 1 => true
  | _ => false

/-- Modelled from the spec: `lnodes.float_product` (not under src) forms the
product of scalar factors, simplifying away trivial unit factors; a single
remaining factor is returned as-is (a "trivial" product), two or more yield
an `L.Product` node. -/
def float_product (factors : List LExpr) : LExpr :=
  match factors.filter (fun f => !f.isOne) with
  | [] => .litFloat 1
  | [f] => f
  | f :: g :: rest => .prod (LArgs.ofList (f :: g :: rest))

mutual
/-- Target-language statements: the subset of LNodes statement nodes built
by the integral generator. -/
inductive Stmt where
  | arrayDecl (symbol : LExpr) (values : List Int) (const : Bool)
  | varDecl (symbol : LExpr) (value : LExpr)
  | assign (lhs rhs : LExpr)
  | assignAdd (lhs rhs : LExpr)
  | forRange (index : LExpr) (start stop : LExpr) (body : Stmts)
  | statementList (body : Stmts)
  | comment (text : String)
  | literalStr (text : String)
  | sectionNode (name : String) (body : Stmts) (declarations : Stmts)
      (input : List LExpr) (output : List LExpr) (annots : List String)
  | pyNone
deriving DecidableEq

/-- Lists of `Stmt` (spelled out so that equality can be derived). -/
inductive Stmts where
  | nil
  | cons (head : Stmt) (tail : Stmts)
deriving DecidableEq
end

def Stmts.ofList : List Stmt → Stmts
  | [] => .nil
  | s :: ss => .cons s (Stmts.ofList ss)

def Stmts.toList : Stmts → List Stmt
  | .nil => []
  | .cons s ss => s :: Stmts.toList ss

/-- Predicate for `isinstance(s, L.Section)`. -/
def Stmt.isSection : Stmt → Bool
  | .sectionNode _ _ _ _ _ _ => true
  | _ => false

/-- The `output` symbol list of a Section (used by
`generate_quadrature_loop`). -/
def Stmt.sectionOutput : Stmt → List LExpr
  | .sectionNode _ _ _ _ out _ => out
  | _ => []

/-- Modelled from the spec: `lnodes.create_nested_for_loops` (not under src)
wraps a body in one `for` loop per loop index, first index outermost, each
running from 0 to the index's extent. -/
structure LoopIndex where
  global_index : LExpr
  size : LExpr
deriving DecidableEq

/-- Modelled from the spec: build the nested loops, first index outermost. -/
def create_nested_for_loops (indices : List LoopIndex) (body : List Stmt) : Stmt :=
  match indices with
  | [] => .statementList (Stmts.ofList body)
  | i :: rest => .forRange i.global_index (.litInt 0) i.size
      (Stmts.ofList [create_nested_for_loops rest body])

/-- Modelled from the spec: `lnodes.commented_code_list` (not under src)
prepends comment statements when the code list is nonempty and returns the
empty list unchanged. -/
def commented_code_list (code : List Stmt) (comments : List String) : List Stmt :=
  if code.isEmpty then code else comments.map Stmt.comment ++ code

/-- Modelled from the spec: the structural optimizer
(`ffcx.codegeneration.optimizer.optimize`, not under src) is a
content-preserving transformation `optimize(statements, rule) -> statements`;
it is modelled as the identity. -/
def optimize (code : List Stmt) : List Stmt := code

/-! ### UFL expression nodes -/

mutual
/-- UFL expression nodes as seen by the generator: a literal constant, a
(modified) terminal identified by a stable id, or an operator applied to
operand nodes.  `isCond` records `isinstance(v, ufl.classes.Condition)`;
`handler` records `v._ufl_handler_name_`. -/
inductive UflExpr where
  | lit (value : Int)
  | terminal (id : Nat)
  | operator (handler : String) (isCond : Bool) (operands : UflArgs)
deriving DecidableEq

/-- Lists of `UflExpr` (spelled out so that equality can be derived). -/
inductive UflArgs where
  | nil
  | cons (head : UflExpr) (tail : UflArgs)
deriving DecidableEq
end

def UflArgs.toList : UflArgs → List UflExpr
  | .nil => []
  | .cons e es => e :: UflArgs.toList es

/-- Python `v._ufl_is_literal_`. -/
def UflExpr.isLiteral : UflExpr → Bool
  | .lit _ => true
  | _ => false

/-- Python `isinstance(v, ufl.classes.Condition)`. -/
def UflExpr.isCondition : UflExpr → Bool
  | .operator _ c _ => c
  | _ => false

/-- Python `v._ufl_handler_name_` (a name for `self._ufl_names.add`). -/
def UflExpr.handlerName : UflExpr → String
  | .lit _ => "constant_value"
  | .terminal _ => "terminal"
  | .operator h _ _ => h

/-- Python `v.ufl_operands`. -/
def UflExpr.operandsList : UflExpr → List UflExpr
  | .operator _ _ ops => ops.toList
  | _ => []

/-- Modelled from the spec: `lnodes.ufl_to_lnodes(v)` on a literal node
synthesizes the corresponding literal target expression directly. -/
def ufl_to_lnodes_lit : UflExpr → LExpr
  | .lit n => .litFloat n
  | .terminal i => .sym (s!"terminal{i}") .SCALAR
  | .operator h _ _ => .sym h .SCALAR

/-- Modelled from the spec: `lnodes.ufl_to_lnodes(v, *vops)` maps a UFL
operator to the target language applied to the operand accesses. -/
def ufl_to_lnodes_call (v : UflExpr) (vops : List LExpr) : LExpr :=
  .uflOp v.handlerName (LArgs.ofList vops)

/-! ### IR data model -/

/-- A quadrature rule: identifier plus weights (`QuadratureRule` from
`ffcx.ir.representationutils`; points are irrelevant to the generator and
omitted, the identifier models `rule.id()`). -/
structure QuadratureRule where
  id : Nat
  weights : List Int
deriving DecidableEq

/-- Geometry quantities appearing as keys of the fixed `ufl_geometry` dict in
`generate_geometry_tables`. -/
inductive GeomQuantity where
  | FacetEdgeVectors
  | CellFacetJacobian
  | ReferenceCellVolume
  | ReferenceFacetVolume
  | ReferenceCellEdgeVectors
  | ReferenceFacetEdgeVectors
  | ReferenceNormal
  | FacetOrientation
deriving DecidableEq

/-- The fixed geometry-quantity table of `generate_geometry_tables`, in
source order, mapping each UFL geometry class to its table name. -/
def ufl_geometry : List (GeomQuantity × String) :=
  [(.FacetEdgeVectors, "facet_edge_vertices"),
   (.CellFacetJacobian, "reference_facet_jacobian"),
   (.ReferenceCellVolume, "reference_cell_volume"),
   (.ReferenceFacetVolume, "reference_facet_volume"),
   (.ReferenceCellEdgeVectors, "reference_edge_vectors"),
   (.ReferenceFacetEdgeVectors, "facet_reference_edge_vectors"),
   (.ReferenceNormal, "reference_facet_normals"),
   (.FacetOrientation, "facet_orientation")]

/-- A modified terminal (`mt`): the generator reads its terminal's geometry
class and cell name (geometry-table scan) and its restriction
(`get_arg_factors`); everything else is consumed opaquely by the backend. -/
structure MT where
  geom : Option (GeomQuantity × String)
  restriction : Option String
deriving DecidableEq

/-- Table metadata attached to a modified argument (`tabledata`): type tag,
block size, index offset, and the local dof count that sizes the dof loop
(the last axis of the table's value array, read by `create_dof_index`). -/
structure TableData where
  ttype : String
  block_size : Int
  offset : Int
  num_dofs : Nat
deriving DecidableEq

/-- Modified-argument data of one argument slot of a block (`ma_data[i]`). -/
structure MAData where
  ma_index : Nat
  tabledata : TableData
deriving DecidableEq

/-- One block-data record (`BlockDataT` from `ffcx.ir.integral`), restricted
to the fields the generator reads. -/
structure BlockDataT where
  ma_data : List MAData
  ttypes : List String
  factor_indices_comp_indices : List (Nat × Nat)
  all_factors_piecewise : Bool
  transposed : Bool
deriving DecidableEq

/-- A dofblock tuple: one tuple of raw local dof indices per argument slot. -/
abbrev BlockMap := List (List Int)

/-- Attributes of one node of the factorization graph. -/
structure NodeAttr where
  status : String
  expression : UflExpr
  mt : Option MT
  tr : Option TableData
deriving DecidableEq

/-- The factorization graph: nodes in stored (dependency-respecting) order,
keyed by integer node index (`F.nodes`, an insertion-ordered dict). -/
structure FGraph where
  nodes : List (Nat × NodeAttr)
deriving DecidableEq

/-- Per-quadrature-rule integrand data (`ir.integrand[rule]`). -/
structure IntegrandData where
  factorization : FGraph
  block_contributions : List (BlockMap × List BlockDataT)
  modified_arguments : List MT
deriving DecidableEq

/-- The integral IR consumed by the generator, restricted to the fields it
reads.  `integrand` is an insertion-ordered dict, modelled as an association
list.  The three `custom_*` fields are the statement lists produced by the
run-time table-tabulation step for "custom" integrals
(`generate_custom_integral_tables`); their text-level content is emission
backend output and is carried opaquely. -/
structure IR where
  integrand : List (QuadratureRule × IntegrandData)
  integral_type : String
  entitytype : String
  tensor_shape : List Nat
  unique_tables : List (String × List Int)
  custom_element_def_parts : List Stmt
  custom_tabulate_parts : List Stmt
  custom_copy_parts : List Stmt
deriving DecidableEq

/-- Lookup `ir.integrand[rule]`. -/
def IR.integrandOf (ir : IR) (rule : QuadratureRule) : Option IntegrandData :=
  alookup ir.integrand rule

/-- Modelled from the spec: `ufl.custom_integral_types`. -/
def custom_integral_types : List String := ["custom", "cutcell", "interface", "overlap"]

/-- Modelled from the spec: `ufl.measure.point_integral_types`. -/
def point_integral_types : List String := ["vertex"]

/-! ### Backend collaborators -/

/-- Modelled from the spec: the narrow backend interfaces (`backend.symbols`,
`backend.access`, `backend.definitions`, `ffcx.codegeneration.geometry`)
consumed by the generator, bundled as opaque-function fields of one record.
`table_access` returns the access expression for an argument's basis value
plus the table symbols it reads. -/
structure Backend where
  access_get : MT → Option TableData → Option QuadratureRule → LExpr
  definitions_get : MT → Option TableData → Option QuadratureRule → LExpr → Stmt
  table_access : TableData → String → Option String → LoopIndex → LoopIndex → LExpr × List LExpr
  argument_loop_index : Nat → LExpr
  quadrature_loop_index : LExpr
  element_tensor : LExpr
  weights_table : QuadratureRule → LExpr
  custom_weights_table : LExpr
  custom_num_points : LExpr
  geometry_write_table : String → String → Stmt

/-- Modelled from the spec: `create_quadrature_index` from
`ffcx.codegeneration.definitions` creates the quadrature-loop index, sized by
the rule's point count (0 without a rule). -/
def create_quadrature_index (rule : Option QuadratureRule) (sym : LExpr) : LoopIndex :=
  { global_index := sym,
    size := .litInt (match rule with | some r => (r.weights.length : Int) | none => 0) }

/-- Modelled from the spec: `create_dof_index` from
`ffcx.codegeneration.definitions` creates a per-argument local-dof loop
index over the table's local dof range. -/
def create_dof_index (td : TableData) (sym : LExpr) : LoopIndex :=
  { global_index := sym, size := .litInt (td.num_dofs : Int) }

/-! ### Generator state: variable scopes, temporaries, counters -/

/-- One variable scope: a dict from UFL expression node to its access
expression. -/
abbrev Scope := List (UflExpr × LExpr)

/-- The mutable state of an `IntegralGenerator` instance: the two-tier
variable scopes (keyed by quadrature rule, `none` being the
rule-independent tier), the temporary-symbol cache, the per-basename
counters, the element-table symbol directory (`backend.symbols.element_tables`)
and the set of UFL handler names seen (`self._ufl_names`). -/
structure GenState where
  scopes : List (Option QuadratureRule × Scope)
  temp_symbols : List ((String × Option QuadratureRule × Nat × Bool) × LExpr)
  symbol_counters : List (String × Nat)
  element_tables : List (String × LExpr)
  ufl_names : List String
deriving DecidableEq

/-- `init_scopes`: one empty scope per quadrature rule plus the
rule-independent (`None`) scope; with fresh caches and counters this is the
state of a freshly constructed generator. -/
def init_state (ir : IR) : GenState :=
  { scopes := ir.integrand.map (fun p => (some p.1, [])) ++ [(none, [])],
    temp_symbols := [],
    symbol_counters := [],
    element_tables := [],
    ufl_names := [] }

/-- The scope dict for a given key (`self.scopes[quadrature_rule]`); an
uninitialized key reads as the empty scope (the generator only ever uses
keys created by `init_scopes`). -/
def GenState.scopeOf (st : GenState) (rule : Option QuadratureRule) : Scope :=
  (alookup st.scopes rule).getD []

/-- `set_var`: record the access expression for node `v` in the scope
selected by `quadrature_rule`. -/
def set_var (st : GenState) (rule : Option QuadratureRule) (v : UflExpr) (vaccess : LExpr) :
    GenState :=
  { st with scopes := aupdate st.scopes rule (aupdate (st.scopeOf rule) v vaccess) }

/-- `get_var`: a literal is synthesized directly; otherwise the
quadrature-loop scope is consulted first, then the piecewise (`None`)
scope; `none` is returned if neither holds the node. -/
def get_var (st : GenState) (rule : Option QuadratureRule) (v : UflExpr) : Option LExpr :=
  if v.isLiteral then some (ufl_to_lnodes_lit v)
  else
    match alookup (st.scopeOf rule) v with
    | some f => some f
    | none => alookup (st.scopeOf none) v

/-- `new_temp_symbol`: fresh symbol `basename + running counter`. -/
def new_temp_symbol (st : GenState) (basename : String) : LExpr × GenState :=
  let c := (alookup st.symbol_counters basename).getD 0
  let name := s!"{basename}{c}"
  (.sym name .SCALAR,
   { st with symbol_counters := aupdate st.symbol_counters basename (c + 1) })

/-- `get_temp_symbol`: memoised temporary symbol for `(tempname,) + key`;
returns the symbol together with whether it was already defined. -/
def get_temp_symbol (st : GenState) (tempname : String)
    (key : Option QuadratureRule × Nat × Bool) : (LExpr × Bool) × GenState :=
  match alookup st.temp_symbols (tempname, key) with
  | some s => ((s, true), st)
  | none =>
      let (s, st') := new_temp_symbol st tempname
      ((s, false),
       { st' with temp_symbols := aupdate st'.temp_symbols (tempname, key) s })

/-! ### `extract_dtype` -/

/-- An operand value as probed by `extract_dtype`: it may expose a `dtype`
attribute, a `symbol` attribute carrying a dtype, be a Python integer, or
expose none of these signals (for example the value `None`). -/
inductive Operand where
  | hasDtype (dt : DataType)
  | hasSymbol (dt : DataType)
  | pyInt (n : Int)
  | noSignal (descr : String)
deriving DecidableEq

/-- One iteration of the operand loop of `extract_dtype`. -/
def operandDtype : Operand → Except String DataType
  | .hasDtype dt => .ok dt
  | .hasSymbol dt => .ok dt
  | .pyInt _ => .ok .INT
  | .noSignal d => .error s!"Not expecting this type of operand {d}"

/-- Modelled from the spec: `lnodes.merge_dtypes` (not under src) merges
operand dtypes with a fixed promotion order, total over the recognized
dtypes. -/
def merge_dtypes (dtypes : List DataType) : DataType :=
  if dtypes.contains .SCALAR then .SCALAR
  else if dtypes.contains .REAL then .REAL
  else if dtypes.contains .INT then .INT
  else .BOOL

/-- `extract_dtype(v, vops)`: collect each operand's dtype (failing on an
operand with no recognizable dtype signal), then return `BOOL` for a
condition and the merged dtype otherwise. -/
def extract_dtype (v : UflExpr) (vops : List Operand) : Except String DataType := do
  let dtypes ← vops.mapM operandDtype
  if v.isCondition then pure .BOOL else pure (merge_dtypes dtypes)

/-- Modelled from the spec: the dtype exposed by the access expressions the
generator stores in its scopes (LNodes expression nodes all carry a dtype). -/
def LExpr.dtypeOf : LExpr → DataType
  | .sym _ dt => dt
  | .litInt _ => .INT
  | .litFloat _ => .REAL
  | .add a _ => a.dtypeOf
  | .mul a _ => a.dtypeOf
  | .prod _ => .SCALAR
  | .arrayAccess arr _ => arr.dtypeOf
  | .multiIndex _ _ => .INT
  | .uflOp _ _ => .SCALAR

/-- The operand shape that a `get_var` result presents to `extract_dtype`:
a found access exposes its dtype; Python `None` (an operand never lowered)
exposes no signal. -/
def operandOf : Option LExpr → Operand
  | none => .noSignal "NoneType"
  | some e => .hasDtype e.dtypeOf

/-! ### `generate_partition` -/

/-- The `name` of an LNodes symbol (`symbol.name`). -/
def LExpr.symName : LExpr → String
  | .sym n _ => n
  | _ => ""

/-- Python set-add into `self._ufl_names`. -/
def addUflName (names : List String) (n : String) : List String :=
  if names.contains n then names else names ++ [n]

/-- The node loop of `generate_partition`: iterate nodes in stored order,
skip nodes of the wrong status, skip nodes already held by the scope store,
and lower the rest (literal / modified terminal / operator), recording each
fresh access with `set_var`. -/
def generate_partition_nodes (backend : Backend) (symName : String) (mode : String)
    (rule : Option QuadratureRule) :
    List (Nat × NodeAttr) → List Stmt → List Stmt → GenState →
    Except String (List Stmt × List Stmt × GenState)
  | [], definitions, intermediates, st => .ok (definitions, intermediates, st)
  | (_, attr) :: rest, definitions, intermediates, st =>
    if attr.status ≠ mode then
      generate_partition_nodes backend symName mode rule rest definitions intermediates st
    else
      let v := attr.expression
      -- Generate code only if the expression is not already in cache
      match get_var st rule v with
      | some _ =>
          generate_partition_nodes backend symName mode rule rest definitions intermediates st
      | none =>
        if v.isLiteral then
          -- this branch is unreachable in the source as well: get_var already
          -- synthesizes an access for every literal node
          let vaccess := ufl_to_lnodes_lit v
          generate_partition_nodes backend symName mode rule rest definitions intermediates
            (set_var st rule v vaccess)
        else
          match attr.mt with
          | some mt =>
            let tabledata := attr.tr
            -- Backend specific modified terminal translation
            let vaccess := backend.access_get mt tabledata rule
            let vdef := backend.definitions_get mt tabledata rule vaccess
            if vdef ≠ Stmt.pyNone ∧ vdef.isSection = false then
              .error "AssertionError: definition is not a Section"
            else
              -- Only add if definition is unique (sub-mesh scenarios can
              -- produce structurally identical redundant definitions)
              let definitions' :=
                if definitions.contains vdef then definitions else definitions ++ [vdef]
              generate_partition_nodes backend symName mode rule rest definitions' intermediates
                (set_var st rule v vaccess)
          | none => do
            -- Get previously visited operands
            let vops := v.operandsList.map (get_var st rule)
            let dtype ← extract_dtype v (vops.map operandOf)
            -- Mapping UFL operator to target language
            let st1 := { st with ufl_names := addUflName st.ufl_names v.handlerName }
            let vexpr := ufl_to_lnodes_call v (vops.filterMap id)
            let j := intermediates.length
            let vaccess := LExpr.sym (s!"{symName}_{j}") dtype
            generate_partition_nodes backend symName mode rule rest definitions
              (intermediates ++ [Stmt.varDecl vaccess vexpr]) (set_var st1 rule v vaccess)

/-- `generate_partition(symbol, F, mode, quadrature_rule)`: returns the
definition statements and the intermediate declarations; definitions pass
through the structural optimizer. -/
def generate_partition (backend : Backend) (symbol : LExpr) (F : FGraph) (mode : String)
    (rule : Option QuadratureRule) (st : GenState) :
    Except String (List Stmt × List Stmt × GenState) := do
  let (definitions, intermediates, st') ←
    generate_partition_nodes backend symbol.symName mode rule F.nodes [] [] st
  .ok (optimize definitions, intermediates, st')

/-- `generate_piecewise_partition(quadrature_rule)`: lower the piecewise
partition of the rule's factorization into the rule-independent scope. -/
def generate_piecewise_partition (ir : IR) (backend : Backend) (rule : QuadratureRule)
    (st : GenState) : Except String (List Stmt × List Stmt × GenState) := do
  let F ← match ir.integrandOf rule with
    | some d => pure d.factorization
    | none => throw "KeyError: quadrature rule not in integrand"
  let rid := rule.id
  generate_partition backend (LExpr.sym (s!"sp_{rid}") .SCALAR) F "piecewise" none st

/-- `generate_varying_partition(quadrature_rule)`: lower the varying
partition of the rule's factorization into the rule's own scope. -/
def generate_varying_partition (ir : IR) (backend : Backend) (rule : QuadratureRule)
    (st : GenState) : Except String (List Stmt × List Stmt × GenState) := do
  let F ← match ir.integrandOf rule with
    | some d => pure d.factorization
    | none => throw "KeyError: quadrature rule not in integrand"
  let rid := rule.id
  generate_partition backend (LExpr.sym (s!"sv_{rid}") .SCALAR) F "varying" (some rule) st

/-! ### Dofblock grouping (`generate_dofblock_partition`, grouping step) -/

/-- The canonical scalar blockmap of one block-data record: every raw
dofblock index `idx` of argument slot `i` maps to
`(idx - offset_i) // block_size_i`, with the slot's table offset and block
size; mirrors the inner loop of `generate_dofblock_partition`, including
its length assertion.  Integer division is Python floor division. -/
def scalar_blockmap (blockmap : BlockMap) (blockdata : BlockDataT) :
    Except String BlockMap :=
  if blockdata.ma_data.length ≠ blockmap.length then
    .error "AssertionError: len(blockdata.ma_data) == len(blockmap)"
  else
    .ok ((blockmap.zip blockdata.ma_data).map fun p =>
      p.1.map fun idx => (idx - p.2.tabledata.offset).fdiv p.2.tabledata.block_size)

/-- The grouping loop of `generate_dofblock_partition`: append every record
to the group keyed by its canonical scalar blockmap (a
`defaultdict(list)`). -/
def group_blocks :
    List (BlockMap × BlockDataT) → List (BlockMap × List BlockDataT) →
    Except String (List (BlockMap × List BlockDataT))
  | [], groups => .ok groups
  | (bm, bd) :: rest, groups => do
      let sbm ← scalar_blockmap bm bd
      group_blocks rest (gappend groups sbm bd)

/-- Flattening of `block_contributions` into `(blockmap, blockdata)` pairs,
sorted by blockmap (`sorted(block_contributions.items())`; keys are unique,
so comparing the blockmaps decides the order). -/
def blocks_of (bc : List (BlockMap × List BlockDataT)) : List (BlockMap × BlockDataT) :=
  (pySorted (fun a b => intListListLe a.1 b.1) bc).flatMap
    (fun p => p.2.map (fun bd => (p.1, bd)))

/-! ### `get_arg_factors` -/

/-- The slot loop of `get_arg_factors`, over the slot indices
`range(block_rank)`: the `ones` table type contributes the literal `1`,
`zeros` is asserted against, and everything else is resolved through the
backend table access. -/
def get_arg_factors_go (ir : IR) (backend : Backend) (blockdata : BlockDataT)
    (rule : QuadratureRule) (iq : LoopIndex) (indices : List LoopIndex) :
    List Nat → Except String (List LExpr × List LExpr)
  | [] => .ok ([], [])
  | i :: restIdx => do
      let mad ← pyGet blockdata.ma_data i
      let td := mad.tabledata
      let scope ← match ir.integrandOf rule with
        | some d => pure d.modified_arguments
        | none => throw "KeyError: quadrature rule not in integrand"
      let mt ← pyGet scope mad.ma_index
      if td.ttype = "zeros" then
        throw "AssertionError: td.ttype != zeros"
      else
        let (arg_factor, arg_tables) ←
          if td.ttype = "ones" then
            pure (LExpr.litInt 1, ([] : List LExpr))
          else do
            let idx ← pyGet indices i
            pure (backend.table_access td ir.entitytype mt.restriction iq idx)
        let (factors, tables) ←
          get_arg_factors_go ir backend blockdata rule iq indices restIdx
        pure (arg_factor :: factors, arg_tables ++ tables)

/-- `get_arg_factors(blockdata, block_rank, quadrature_rule, iq, indices)`. -/
def get_arg_factors (ir : IR) (backend : Backend) (blockdata : BlockDataT)
    (block_rank : Nat) (rule : QuadratureRule) (iq : LoopIndex)
    (indices : List LoopIndex) : Except String (List LExpr × List LExpr) :=
  get_arg_factors_go ir backend blockdata rule iq indices (List.range block_rank)

/-! ### `generate_block_parts` -/

/-- The `B_indices` of one block-data record: one dof loop index per
argument slot, built from the slot's table reference and the backend's
argument loop-index symbol. -/
def build_B_indices (backend : Backend) (blockdata : BlockDataT) :
    List Nat → Except String (List LoopIndex)
  | [] => .ok []
  | i :: restIdx => do
      let mad ← pyGet blockdata.ma_data i
      let table_ref := mad.tabledata
      let symbol := backend.argument_loop_index i
      let index := create_dof_index table_ref symbol
      let rest ← build_B_indices backend blockdata restIdx
      pure (index :: rest)

/-- The `A_indices` of one block-data record: per slot the output-tensor
index is `index.global_index + offset` when the slot's (canonical) dofblock
has length 1, else `block_size * index.global_index + offset`. -/
def build_A_indices (blockmap : BlockMap) (blockdata : BlockDataT)
    (B_indices : List LoopIndex) : List Nat → Except String (List LExpr)
  | [] => .ok []
  | i :: restIdx => do
      let index ← pyGet B_indices i
      let mad ← pyGet blockdata.ma_data i
      let offset := mad.tabledata.offset
      let b ← pyGet blockmap i
      let a ←
        if b.length = 1 then
          pure (LExpr.add index.global_index (.litInt offset))
        else
          pure (LExpr.add (.mul (.litInt mad.tabledata.block_size) index.global_index)
            (.litInt offset))
      let rest ← build_A_indices blockmap blockdata B_indices restIdx
      pure (a :: rest)

/-- The quadrature weight access of `generate_block_parts`: the weights
table of the rule (or the run-time weights table for custom integral
kinds) indexed by the quadrature-loop index. -/
def block_weight (ir : IR) (backend : Backend) (rule : QuadratureRule) (iq : LoopIndex) : LExpr :=
  if custom_integral_types.contains ir.integral_type then
    LExpr.arrayAccess backend.custom_weights_table iq.global_index
  else
    LExpr.arrayAccess (backend.weights_table rule) iq.global_index

/-- One iteration of the `for blockdata in blocklist` loop of
`generate_block_parts`, in source order: build `B_indices`, reject `zeros`
ttypes, reject non-scalar integrands, fetch the factor expression, form and
cache `fw = f * weight`, reject transposed blocks, fetch argument factors
and produce the right-hand side and the target `A_indices`.  A factor
expression missing from the scope store fails here (in Python the `None`
would crash inside `float_product`). -/
def block_data_step (ir : IR) (backend : Backend) (rule : QuadratureRule)
    (blockmap : BlockMap) (block_rank : Nat) (iq : LoopIndex) (blockdata : BlockDataT)
    (st : GenState) :
    Except String ((List LoopIndex × List LExpr × LExpr × LExpr × List LExpr × List Stmt) ×
      GenState) := do
  let B_indices ← build_B_indices backend blockdata (List.range block_rank)
  if blockdata.ttypes.contains "zeros" then
    throw "RuntimeError: Not expecting zero arguments to be left in dofblock generation."
  else if blockdata.factor_indices_comp_indices.length > 1 then
    throw "RuntimeError: Code generation for non-scalar integrals unsupported"
  else
  -- We have scalar integrand here, take just the factor index
  let fic ← pyGet blockdata.factor_indices_comp_indices 0
  let factor_index := fic.1
  -- Get factor expression
  let F ← match ir.integrandOf rule with
    | some d => pure d.factorization
    | none => throw "KeyError: quadrature rule not in integrand"
  let vattr ← match alookup F.nodes factor_index with
    | some a => pure a
    | none => throw "KeyError: factor index not in factorization nodes"
  let v := vattr.expression
  let f ← match get_var st (some rule) v with
    | some f => pure f
    | none => throw "TypeError: factor expression was not lowered"
  -- Quadrature weight was removed in representation, add it back now
  let weight := block_weight ir backend rule iq
  -- Define fw = f * weight
  let fw_rhs := float_product [f, weight]
  let (fw, interNew, st) ←
    if fw_rhs.isProduct = false then
      pure (fw_rhs, ([] : List Stmt), st)
    else do
      -- Define and cache scalar temp variable
      let key := (some rule, factor_index, blockdata.all_factors_piecewise)
      let ((fw, defined), st') := get_temp_symbol st "fw" key
      if defined then pure (fw, ([] : List Stmt), st')
      else pure (fw, [Stmt.varDecl fw fw_rhs], st')
  let var ← match fw with
    | .sym n dt => pure (LExpr.sym n dt)
    | .arrayAccess arr _ => pure arr
    | _ => throw "AttributeError: fw has no attribute array"
  if blockdata.transposed then
    throw "AssertionError: Not handled yet"
  else
  -- Fetch code to access modified arguments
  let (arg_factors, table) ←
    get_arg_factors ir backend blockdata block_rank rule iq B_indices
  -- Define B_rhs = fw * arg_factors
  let B_rhs := float_product (fw :: arg_factors)
  let A_indices ← build_A_indices blockmap blockdata B_indices (List.range block_rank)
  pure ((B_indices, A_indices, B_rhs, var, table, interNew), st)

/-- The record loop of `generate_block_parts`: thread the grouped
right-hand sides, the `fw` intermediates, the table and variable inputs and
the (Python loop-variable) `B_indices` of the most recent record through
the per-record step. -/
def generate_block_parts_go (ir : IR) (backend : Backend) (rule : QuadratureRule)
    (blockmap : BlockMap) (block_rank : Nat) (iq : LoopIndex) :
    List BlockDataT →
    List (List LExpr × List LExpr) → List Stmt → List LExpr → List LExpr →
    Option (List LoopIndex) → GenState →
    Except String (List (List LExpr × List LExpr) × List Stmt × List LExpr × List LExpr ×
      Option (List LoopIndex) × GenState)
  | [], rhs_expressions, intermediates, tables, vars, lastB, st =>
      .ok (rhs_expressions, intermediates, tables, vars, lastB, st)
  | bd :: rest, rhs_expressions, intermediates, tables, vars, _lastB, st => do
      let ((B_indices, A_indices, B_rhs, var, table, interNew), st') ←
        block_data_step ir backend rule blockmap block_rank iq bd st
      generate_block_parts_go ir backend rule blockmap block_rank iq rest
        (gappend rhs_expressions A_indices B_rhs)
        (intermediates ++ interNew) (tables ++ table) (vars ++ [var])
        (some B_indices) st'

/-- The access `A[multi_index]` into the output element tensor for one
tuple of target indices. -/
def tensor_access (A : LExpr) (shape : List Nat) (k : List LExpr) : LExpr :=
  .arrayAccess A (.multiIndex (LArgs.ofList k) shape)

/-- The accumulation body of `generate_block_parts`: for every target index
tuple, in dict insertion order, one `AssignAdd` per recorded right-hand
side, in recorded order. -/
def accum_statements (A : LExpr) (shape : List Nat)
    (groups : List (List LExpr × List LExpr)) : List Stmt :=
  groups.flatMap fun g => g.2.map fun expression =>
    Stmt.assignAdd (tensor_access A shape g.1) expression

/-- `generate_block_parts(quadrature_rule, blockmap, blocklist)`: per-record
processing followed by the accumulation-body construction.  The loop nest
wrapping all accumulation statements uses the `B_indices` of the last
record of the list (the Python loop variable surviving the loop), reversed
so that argument slot 0 is innermost; the `list(set(...))` input
deduplication is modelled by `pyDedup`. -/
def generate_block_parts (ir : IR) (backend : Backend) (rule : QuadratureRule)
    (blockmap : BlockMap) (blocklist : List BlockDataT) (st : GenState) :
    Except String ((List Stmt × List Stmt) × GenState) := do
  let block_rank := blockmap.length
  let iq := create_quadrature_index (some rule) backend.quadrature_loop_index
  let (rhs_expressions, intermediates, tables, vars, lastB, st') ←
    generate_block_parts_go ir backend rule blockmap block_rank iq blocklist
      [] [] [] [] none st
  -- List of statements to keep in the inner loop
  let keep := rhs_expressions
  let A := backend.element_tensor
  let A_shape := ir.tensor_shape
  let body : List Stmt := accum_statements A A_shape keep
  -- reverse B_indices
  let B_indices ← match lastB with
    | some b => pure b.reverse
    | none => throw "NameError: B_indices referenced before assignment"
  let body := [create_nested_for_loops B_indices body]
  let input := pyDedup (vars ++ tables)
  let output := [A]
  if (input.all fun i => i.isSym) = false then
    throw "AssertionError: input not all Symbol objects"
  else if (output.all fun o => o.isSym) = false then
    throw "AssertionError: output not all Symbol objects"
  else
  let annots := if B_indices.length > 1 then ["licm"] else []
  pure (([Stmt.sectionNode "Tensor Computation" (Stmts.ofList body) Stmts.nil
      input output annots], intermediates), st')

/-- The group loop of `generate_dofblock_partition`. -/
def dofblock_groups_go (ir : IR) (backend : Backend) (rule : QuadratureRule) :
    List (BlockMap × List BlockDataT) → List Stmt → List Stmt → GenState →
    Except String ((List Stmt × List Stmt) × GenState)
  | [], quadparts, intermediates, st => .ok ((quadparts, intermediates), st)
  | (bm, bds) :: rest, quadparts, intermediates, st => do
      let ((block_quadparts, intermediate), st') ←
        generate_block_parts ir backend rule bm bds st
      dofblock_groups_go ir backend rule rest (quadparts ++ block_quadparts)
        (intermediates ++ intermediate) st'

/-- `generate_dofblock_partition(quadrature_rule)`: sort and flatten the
block contributions, group them by canonical scalar blockmap, and generate
each group's block parts. -/
def generate_dofblock_partition (ir : IR) (backend : Backend) (rule : QuadratureRule)
    (st : GenState) : Except String ((List Stmt × List Stmt) × GenState) := do
  let bc ← match ir.integrandOf rule with
    | some d => pure d.block_contributions
    | none => throw "KeyError: quadrature rule not in integrand"
  let blocks := blocks_of bc
  let block_groups ← group_blocks blocks []
  dofblock_groups_go ir backend rule block_groups [] [] st

/-! ### `generate_quadrature_loop` and orchestration -/

/-- The `intermediates_fw` processing of `generate_quadrature_loop`: each
forwarded intermediate must be a `VariableDecl`; its symbol joins the
Intermediates section's outputs, a zero-initialising declaration is made,
and the value is re-assigned inside the section body. -/
def fw_section_data : List Stmt → Except String (List LExpr × List Stmt × List Stmt)
  | [] => .ok ([], [], [])
  | Stmt.varDecl s v :: rest => do
      let (out, decls, assigns) ← fw_section_data rest
      pure (s :: out, Stmt.varDecl s (.litInt 0) :: decls, Stmt.assign s v :: assigns)
  | _ :: _ => .error "AssertionError: intermediate is not a VariableDecl"

/-- The `inputs` collection of `generate_quadrature_loop`: every definition
must be a Section, whose outputs are concatenated. -/
def collect_section_inputs : List Stmt → Except String (List LExpr)
  | [] => .ok []
  | d :: rest =>
      if d.isSection then do
        let inputs ← collect_section_inputs rest
        pure (d.sectionOutput ++ inputs)
      else .error "AssertionError: definition is not a Section"

/-- `generate_quadrature_loop(quadrature_rule)`: varying partition, dofblock
partition, Intermediates section, quadrature-point index (resized for
custom integral kinds), optimization, and the wrapping quadrature loop. -/
def generate_quadrature_loop (ir : IR) (backend : Backend) (rule : QuadratureRule)
    (st : GenState) : Except String (List Stmt × GenState) := do
  -- Generate varying partition
  let (definitions, intermediates_0, st1) ← generate_varying_partition ir backend rule st
  -- Generate dofblock parts
  let ((tensor_comp, intermediates_fw), st2) ← generate_dofblock_partition ir backend rule st1
  if (tensor_comp.all fun tc => tc.isSection) = false then
    throw "AssertionError: tensor computation contains a non-Section"
  else
  let inputs ← collect_section_inputs definitions
  let (output, declarations, assigns) ← fw_section_data intermediates_fw
  let intermediates := [Stmt.sectionNode "Intermediates"
      (Stmts.ofList (intermediates_0 ++ assigns)) (Stmts.ofList declarations)
      inputs output []]
  let iq0 := create_quadrature_index (some rule) backend.quadrature_loop_index
  let iq :=
    if custom_integral_types.contains ir.integral_type then
      { iq0 with size := backend.custom_num_points }
    else iq0
  let code := definitions ++ intermediates ++ tensor_comp
  let code := optimize code
  pure ([create_nested_for_loops [iq] code], st2)

/-- `generate_quadrature_tables()`: one constant weights array per rule,
skipped entirely for custom and point integral kinds. -/
def generate_quadrature_tables (ir : IR) (backend : Backend) : List Stmt :=
  if (custom_integral_types ++ point_integral_types).contains ir.integral_type then []
  else
    commented_code_list
      (ir.integrand.map fun p => Stmt.arrayDecl (backend.weights_table p.1) p.1.weights true)
      ["Quadrature rules"]

/-- `declare_table(name, table)`: register the table symbol in the backend
symbol directory and declare the constant array. -/
def declare_table (st : GenState) (name : String) (table : List Int) :
    List Stmt × GenState :=
  let table_symbol := LExpr.sym name .REAL
  ([Stmt.arrayDecl table_symbol table true],
   { st with element_tables := aupdate st.element_tables name table_symbol })

/-- `generate_element_tables()`: for custom integral kinds the run-time
tabulation statement lists (carried opaquely in the IR) are emitted and the
table symbols registered; otherwise each unique table is declared, in
sorted name order. -/
def generate_element_tables (ir : IR) (st : GenState) : List Stmt × GenState :=
  let tables := ir.unique_tables
  let sorted_tables := pySorted (fun a b => strLe a.1 b.1) tables
  let (parts, st') :=
    if custom_integral_types.contains ir.integral_type then
      (ir.custom_element_def_parts ++ ir.custom_tabulate_parts ++ ir.custom_copy_parts,
       sorted_tables.foldl (fun s p =>
         { s with element_tables := aupdate s.element_tables p.1 (LExpr.sym p.1 .REAL) }) st)
    else
      sorted_tables.foldl (fun acc p =>
        let (decl, s') := declare_table acc.2 p.1 p.2
        (acc.1 ++ decl, s')) ([], st)
  (commented_code_list parts
    ["Precomputed values of basis functions and precomputations",
     "FE* dimensions: [permutation][entities][points][dofs]"], st')

/-- The cell names collected for one geometry quantity by the factorization
scan of `generate_geometry_tables` (a Python set; modelled with
first-occurrence order). -/
def collect_geometry_cells (ir : IR) (t : GeomQuantity) : List String :=
  (ir.integrand.flatMap fun p =>
    p.2.factorization.nodes.filterMap fun n =>
      match n.2.mt with
      | some mt =>
          match mt.geom with
          | some (g, c) => if g = t then some c else none
          | none => none
      | none => none).eraseDups

/-- `generate_geometry_tables()`: one table per referenced geometry quantity
and cell, in the fixed quantity order of `ufl_geometry`. -/
def generate_geometry_tables (ir : IR) (backend : Backend) : List Stmt :=
  ufl_geometry.flatMap fun p =>
    (collect_geometry_cells ir p.1).map fun c => backend.geometry_write_table p.2 c

/-- The per-rule loop of `generate()`.  In the source
`all_preparts += self.generate_piecewise_partition(rule)` extends the parts
list with the returned `(definitions, intermediates)` pair; the two lists
are flattened here in that order, as the final `StatementList` does. -/
def process_rules (ir : IR) (backend : Backend) :
    List (QuadratureRule × IntegrandData) → List Stmt → List Stmt → GenState →
    Except String (List Stmt × List Stmt × GenState)
  | [], all_preparts, all_quadparts, st => .ok (all_preparts, all_quadparts, st)
  | (rule, _) :: rest, all_preparts, all_quadparts, st => do
      -- Generate code to compute piecewise constant scalar factors
      let (defs, ints, st1) ← generate_piecewise_partition ir backend rule st
      -- Generate code to integrate reusable blocks of final element tensor
      let (quad, st2) ← generate_quadrature_loop ir backend rule st1
      process_rules ir backend rest (all_preparts ++ defs ++ ints)
        (all_quadparts ++ quad) st2

/-- `generate()`: assert the scopes are untouched, then emit quadrature
tables, element tables, geometry tables, and per rule the piecewise
pre-loop parts and the quadrature-loop parts, concatenated in this fixed
order. -/
def generate (ir : IR) (backend : Backend) (st : GenState) :
    Except String (Stmt × GenState) := do
  if (st.scopes.all fun p => p.2.isEmpty) = false then
    throw "AssertionError: generate() called with non-empty scopes"
  else
  let qparts := generate_quadrature_tables ir backend
  let (eparts, st1) := generate_element_tables ir st
  let gparts := generate_geometry_tables ir backend
  let (all_preparts, all_quadparts, st2) ← process_rules ir backend ir.integrand [] [] st1
  pure (Stmt.statementList (Stmts.ofList
      (qparts ++ eparts ++ gparts ++ all_preparts ++ all_quadparts)), st2)

/-! ### Claim C9: dtype-merge fail-fast -/

/-- An operand exposing none of the three dtype signals. -/
def Operand.isNoSignal : Operand → Bool
  | .noSignal _ => true
  | _ => false

/-- The dtype signal of a well-shaped operand. -/
def Operand.signalDtype : Operand → DataType
  | .hasDtype dt => dt
  | .hasSymbol dt => dt
  | .pyInt _ => .INT
  | .noSignal _ => .BOOL

/-- The concrete block-data records of the spec's canonicalization example:
an argument table with block size 2 and offset 0 (resp. offset 2). -/
def exampleRecordOffset0 : BlockDataT :=
  { ma_data := [{ ma_index := 0, tabledata := { ttype := "general", block_size := 2, offset := 0, num_dofs := 2 } }],
    ttypes := ["general"],
    factor_indices_comp_indices := [(0, 0)],
    all_factors_piecewise := false,
    transposed := false }

/-- The same record shape with table offset 2. -/
def exampleRecordOffset2 : BlockDataT :=
  { ma_data := [{ ma_index := 0, tabledata := { ttype := "general", block_size := 2, offset := 2, num_dofs := 2 } }],
    ttypes := ["general"],
    factor_indices_comp_indices := [(0, 0)],
    all_factors_piecewise := false,
    transposed := false }

/-! ### Concrete example instances (used by witnesses) -/

/-- A concrete backend instance for evaluating the generator on closed
inputs. -/
def exampleBackend : Backend where
  access_get := fun _ _ _ => .sym "acc" .SCALAR
  definitions_get := fun _ _ _ _ => .sectionNode "defsec" .nil .nil [] [.sym "acc" .SCALAR] []
  table_access := fun _ _ _ _ idx =>
    (.arrayAccess (.sym "FE" .REAL) idx.global_index, [.sym "FE" .REAL])
  argument_loop_index := fun i => .sym (s!"ic{i}") .INT
  quadrature_loop_index := .sym "iq" .INT
  element_tensor := .sym "A" .SCALAR
  weights_table := fun r => .sym (s!"weights{r.id}") .REAL
  custom_weights_table := .sym "cw" .REAL
  custom_num_points := .sym "np" .INT
  geometry_write_table := fun n c => .comment (n ++ c)

/-- A concrete factorization graph: a literal, a modified terminal and an
operator over both, all piecewise. -/
def exampleF : FGraph :=
  ⟨[(0, ⟨"piecewise", .lit 2, none, none⟩),
    (1, ⟨"piecewise", .terminal 3, some ⟨none, none⟩, none⟩),
    (2, ⟨"piecewise", .operator "sum" false (.cons (.lit 2) (.cons (.terminal 3) .nil)),
        none, none⟩)]⟩

/-- A concrete two-point quadrature rule. -/
def exampleRule : QuadratureRule := ⟨0, [1, 1]⟩

/-- A concrete one-rule IR. -/
def exampleIR : IR :=
  ⟨[(exampleRule, ⟨exampleF, [([[0, 2]], [exampleRecordOffset0])], [⟨none, none⟩]⟩)],
   "cell", "cell", [4], [("FE", [1, 1, 1, 1])], [], [], []⟩

/-- The generator state after lowering `exampleF` piecewise from the fresh
state of `exampleIR`. -/
def exampleStOne : GenState :=
  { scopes := [(some exampleRule, []),
      (none, [(.terminal 3, .sym "acc" .SCALAR),
              (.operator "sum" false (.cons (.lit 2) (.cons (.terminal 3) .nil)),
                .sym "sp_0_0" .SCALAR)])],
    temp_symbols := [], symbol_counters := [], element_tables := [], ufl_names := ["sum"] }

/-- A concrete record carrying a "zeros" table type. -/
def zeroRecord : BlockDataT :=
  ⟨[⟨0, ⟨"zeros", 1, 0, 2⟩⟩], ["zeros"], [(0, 0)], false, false⟩

def exampleOpNode : UflExpr :=
  .operator "sum" false (.cons (.lit 2) (.cons (.terminal 3) .nil))

def exampleStFactor : GenState :=
  set_var (init_state exampleIR) none exampleOpNode (.sym "w0" .SCALAR)

def exampleBd1 : BlockDataT :=
  ⟨[⟨0, ⟨"general", 2, 0, 2⟩⟩], ["general"], [(2, 0)], false, false⟩

/-- The quadrature index used by concrete block-part witnesses. -/
def exampleIq : LoopIndex :=
  create_quadrature_index (some exampleRule) exampleBackend.quadrature_loop_index

/-- A concrete record with two factor-index pairs (non-scalar integrand). -/
def multiFactorRecord : BlockDataT :=
  ⟨[⟨0, ⟨"general", 2, 0, 2⟩⟩], ["general"], [(0, 0), (1, 0)], false, false⟩

/-- The state after caching the fresh `fw` temporary in
`exampleStFactor`. -/
def exampleStFw : GenState :=
  { exampleStFactor with
    temp_symbols := [(("fw", some exampleRule, 2, false), .sym "fw0" .SCALAR)],
    symbol_counters := [("fw", 1)] }

/-- A second single-factor record, same factor index, different component
index. -/
def exampleBd2 : BlockDataT :=
  ⟨[⟨0, ⟨"general", 2, 0, 2⟩⟩], ["general"], [(2, 1)], false, false⟩

/-- A single-factor record like `exampleBd1` but with a three-dof table. -/
def exampleBd3 : BlockDataT :=
  ⟨[⟨0, ⟨"general", 2, 0, 3⟩⟩], ["general"], [(2, 0)], false, false⟩

/-- The grouped right-hand sides of the C10 witness run. -/
def exampleRhs10 : List (List LExpr × List LExpr) :=
  [([.add (.mul (.litInt 2) (.sym "ic0" .INT)) (.litInt 0)],
    [float_product (.sym "fw0" .SCALAR :: [.arrayAccess (.sym "FE" .REAL) (.sym "ic0" .INT)]),
     float_product (.sym "fw0" .SCALAR :: [.arrayAccess (.sym "FE" .REAL) (.sym "ic0" .INT)])])]

/-- The Tensor Computation section of the C10 witness run: the loop extent
3 comes from the last record's table even though the first record has a
two-dof table. -/
def exampleQp10 : List Stmt :=
  [.sectionNode "Tensor Computation"
    (Stmts.ofList [create_nested_for_loops [⟨.sym "ic0" .INT, .litInt 3⟩]
      (accum_statements (.sym "A" .SCALAR) [4] exampleRhs10)])
    Stmts.nil [.sym "fw0" .SCALAR, .sym "FE" .REAL] [.sym "A" .SCALAR] []]

/-! ### Claim C4: accumulation grouping machinery -/

/-- The per-term `(target indices, right-hand side)` pairs grouped exactly
as the `rhs_expressions` defaultdict of `generate_block_parts`. -/
def groupPairs (ps : List (List LExpr × LExpr)) : List (List LExpr × List LExpr) :=
  ps.foldl (fun gs p => gappend gs p.1 p.2) []

/-- The target-index formula stated by the specification: per argument
slot, `localIndex + offset` when the slot's canonical dofblock has length
1, else `block_size * localIndex + offset`. -/
def spec_A_indices (backend : Backend) (blockmap : BlockMap) (bd : BlockDataT) : List LExpr :=
  (List.range blockmap.length).map fun i =>
    let offset := (((bd.ma_data[i]?).map fun m => m.tabledata.offset).getD 0)
    let bs := (((bd.ma_data[i]?).map fun m => m.tabledata.block_size).getD 0)
    let gi := backend.argument_loop_index i
    if (((blockmap[i]?).getD []).length = 1) then LExpr.add gi (.litInt offset)
    else LExpr.add (.mul (.litInt bs) gi) (.litInt offset)

/-- Does a statement accumulate into the tensor entry at index tuple `k`? -/
def targets (A : LExpr) (shape : List Nat) (k : List LExpr) : Stmt → Bool
  | .assignAdd lhs _ => lhs = tensor_access A shape k
  | _ => false

/-! ### Claim C8: generate() output ordering -/

/-- Per-rule chunk computation following the specification's words: for
each quadrature rule in list order, the piecewise pre-loop parts
(definitions then intermediates) and the quadrature-loop block, with the
generator state threaded through. -/
def spec_rule_chunks (ir : IR) (backend : Backend) :
    List (QuadratureRule × IntegrandData) → GenState →
    Except String (List (List Stmt × List Stmt) × GenState)
  | [], st => .ok ([], st)
  | (rule, _) :: rest, st => do
      let (defs, ints, st1) ← generate_piecewise_partition ir backend rule st
      let (quad, st2) ← generate_quadrature_loop ir backend rule st1
      let (chunks, st3) ← spec_rule_chunks ir backend rest st2
      .ok ((defs ++ ints, quad) :: chunks, st3)

/-- The output shape stated by the specification: quadrature tables,
element tables, geometry tables, then every rule's pre-loop parts, then
every rule's quadrature loop, concatenated in this fixed order. -/
def spec_generate (ir : IR) (backend : Backend) (st : GenState) :
    Except String (Stmt × GenState) := do
  if (st.scopes.all fun p => p.2.isEmpty) = false then
    throw "AssertionError: generate() called with non-empty scopes"
  else
  let (chunks, st2) ← spec_rule_chunks ir backend ir.integrand
    (generate_element_tables ir st).2
  pure (Stmt.statementList (Stmts.ofList
      (generate_quadrature_tables ir backend
       ++ (generate_element_tables ir st).1
       ++ generate_geometry_tables ir backend
       ++ chunks.flatMap Prod.fst
       ++ chunks.flatMap Prod.snd)), st2)

theorem mem_pyDedup [DecidableEq α] (l : List α) (a : α) : a ∈ pyDedup l ↔ a ∈ l := by
  induction l with
  | nil => simp [pyDedup]
  | cons x xs ih =>
      by_cases hx : x ∈ pyDedup xs
      · simp only [pyDedup, hx, if_true]
        rw [ih, List.mem_cons]
        constructor
        · exact Or.inr
        · rintro (rfl | h)
          · exact ih.mp hx
          · exact h
      · simp [pyDedup, hx, ih]

theorem LArgs.toList_ofList (l : List LExpr) : (LArgs.ofList l).toList = l := by
  induction l with
  | nil => rfl
  | cons e es ih => simp [LArgs.ofList, LArgs.toList, ih]

theorem LArgs.ofList_inj {a b : List LExpr} (h : LArgs.ofList a = LArgs.ofList b) : a = b := by
  have := congrArg LArgs.toList h
  simpa [LArgs.toList_ofList] using this

theorem Stmts.toList_ofList_stmts (l : List Stmt) : (Stmts.ofList l).toList = l := by
  induction l with
  | nil => rfl
  | cons s ss ih => simp [Stmts.ofList, Stmts.toList, ih]

/-! ### Association-list lemmas -/

theorem alookup_aupdate_self [DecidableEq κ] (l : List (κ × β)) (k : κ) (v : β) :
    alookup (aupdate l k v) k = some v := by
  induction l with
  | nil => simp [aupdate, alookup]
  | cons p rest ih =>
      obtain ⟨k', v'⟩ := p
      by_cases h : k' = k
      · simp [aupdate, alookup, h]
      · simp [aupdate, alookup, h, ih]

theorem alookup_aupdate_other [DecidableEq κ] (l : List (κ × β)) {k k₂ : κ} (v : β)
    (h : k ≠ k₂) : alookup (aupdate l k v) k₂ = alookup l k₂ := by
  induction l with
  | nil => simp [aupdate, alookup, h]
  | cons p rest ih =>
      obtain ⟨k', v'⟩ := p
      by_cases h' : k' = k
      · subst h'
        simp [aupdate, alookup, h]
      · simp [aupdate, alookup, h', ih]

theorem alookup_mem [DecidableEq κ] {l : List (κ × β)} {k : κ} {v : β}
    (h : alookup l k = some v) : (k, v) ∈ l := by
  induction l with
  | nil => simp [alookup] at h
  | cons p rest ih =>
      obtain ⟨k', v'⟩ := p
      by_cases h' : k' = k
      · subst h'
        simp [alookup] at h
        simp [h]
      · simp [alookup, h'] at h
        exact List.mem_cons_of_mem _ (ih h)

theorem alookup_gappend_self [DecidableEq κ] (l : List (κ × List β)) (k : κ) (v : β) :
    alookup (gappend l k v) k = some ((alookup l k).getD [] ++ [v]) := by
  induction l with
  | nil => simp [gappend, alookup]
  | cons p rest ih =>
      obtain ⟨k', vs⟩ := p
      by_cases h : k' = k
      · simp [gappend, alookup, h]
      · simp [gappend, alookup, h, ih]

theorem alookup_gappend_other [DecidableEq κ] (l : List (κ × List β)) {k k₂ : κ} (v : β)
    (h : k ≠ k₂) : alookup (gappend l k v) k₂ = alookup l k₂ := by
  induction l with
  | nil => simp [gappend, alookup, h]
  | cons p rest ih =>
      obtain ⟨k', vs⟩ := p
      by_cases h' : k' = k
      · subst h'
        simp [gappend, alookup, h]
      · simp [gappend, alookup, h', ih]

/-! ### Scope-store lemmas -/

theorem scopeOf_set_var_self (st : GenState) (r : Option QuadratureRule) (v : UflExpr)
    (a : LExpr) : (set_var st r v a).scopeOf r = aupdate (st.scopeOf r) v a := by
  simp [set_var, GenState.scopeOf, alookup_aupdate_self]

theorem scopeOf_set_var_other (st : GenState) {r r₂ : Option QuadratureRule} (v : UflExpr)
    (a : LExpr) (h : r ≠ r₂) : (set_var st r v a).scopeOf r₂ = st.scopeOf r₂ := by
  simp [set_var, GenState.scopeOf, alookup_aupdate_other _ _ h]

theorem get_var_scopes_only (st st₂ : GenState) (h : st.scopes = st₂.scopes)
    (r : Option QuadratureRule) (v : UflExpr) : get_var st r v = get_var st₂ r v := by
  simp [get_var, GenState.scopeOf, h]

theorem get_var_set_var_self (st : GenState) (r : Option QuadratureRule) (v : UflExpr)
    (a : LExpr) (hnl : v.isLiteral = false) :
    get_var (set_var st r v a) r v = some a := by
  simp [get_var, hnl, scopeOf_set_var_self, alookup_aupdate_self]

theorem scopeOf_set_var_lookup (st : GenState) (rw r : Option QuadratureRule)
    (w v : UflExpr) (b : LExpr) :
    alookup ((set_var st rw w b).scopeOf r) v =
      if rw = r ∧ w = v then some b else alookup (st.scopeOf r) v := by
  by_cases hr : rw = r
  · subst hr
    rw [scopeOf_set_var_self]
    by_cases hw : w = v
    · subst hw
      simp [alookup_aupdate_self]
    · simp [alookup_aupdate_other _ _ hw, hw]
  · rw [scopeOf_set_var_other _ _ _ hr]
    simp [hr]

theorem get_var_none_elim {st : GenState} {r : Option QuadratureRule} {v : UflExpr}
    (h : get_var st r v = none) :
    v.isLiteral = false ∧ alookup (st.scopeOf r) v = none ∧
      alookup (st.scopeOf none) v = none := by
  by_cases hl : v.isLiteral
  · simp [get_var, hl] at h
  · refine ⟨by simpa using hl, ?_, ?_⟩ <;>
    · simp only [get_var, hl, Bool.false_eq_true, if_false] at h
      rcases h1 : alookup (st.scopeOf r) v with _ | f <;> rw [h1] at h <;> simp_all

theorem get_var_some_elim {st : GenState} {r : Option QuadratureRule} {v : UflExpr}
    {a : LExpr} (hnl : v.isLiteral = false) (h : get_var st r v = some a) :
    alookup (st.scopeOf r) v = some a ∨
      (alookup (st.scopeOf r) v = none ∧ alookup (st.scopeOf none) v = some a) := by
  simp only [get_var, hnl, Bool.false_eq_true, if_false] at h
  rcases h1 : alookup (st.scopeOf r) v with _ | f <;> rw [h1] at h
  · exact Or.inr ⟨rfl, h⟩
  · exact Or.inl (by simpa using h)

/-- Recording an access for a node not present in any consulted tier does
not disturb an existing positive lookup. -/
theorem get_var_set_var_keep (st : GenState) (r rw : Option QuadratureRule)
    (v w : UflExpr) (a b : LExpr) (hva : get_var st r v = some a)
    (hwnone : get_var st rw w = none) :
    get_var (set_var st rw w b) r v = some a := by
  by_cases hl : v.isLiteral
  · simpa [get_var, hl] using hva
  · have hnl : v.isLiteral = false := by simpa using hl
    obtain ⟨hwl, hw1, hw2⟩ := get_var_none_elim hwnone
    have hcase := get_var_some_elim hnl hva
    simp only [get_var, hnl, Bool.false_eq_true, if_false]
    rcases hcase with hr | ⟨hrnone, hnone⟩
    · -- found directly in scope r: the updated r-scope still holds it
      have : alookup ((set_var st rw w b).scopeOf r) v = some a := by
        rw [scopeOf_set_var_lookup]
        by_cases hc : rw = r ∧ w = v
        · obtain ⟨hc1, hc2⟩ := hc
          subst hc1; subst hc2
          rw [hr] at hw1
          exact absurd hw1 (by simp)
        · simp [hc, hr]
      rw [this]
    · -- found through the independent-scope fallback
      have h1 : alookup ((set_var st rw w b).scopeOf r) v = none := by
        rw [scopeOf_set_var_lookup]
        by_cases hc : rw = r ∧ w = v
        · obtain ⟨hc1, hc2⟩ := hc
          subst hc1; subst hc2
          rw [hrnone] at hw1
          rw [hnone] at hw2
          exact absurd hw2 (by simp)
        · simp [hc, hrnone]
      have h2 : alookup ((set_var st rw w b).scopeOf none) v = some a := by
        rw [scopeOf_set_var_lookup]
        by_cases hc : rw = none ∧ w = v
        · obtain ⟨hc1, hc2⟩ := hc
          subst hc1; subst hc2
          rw [hnone] at hw2
          exact absurd hw2 (by simp)
        · simp [hc, hnone]
      rw [h1, h2]

/-! ### Claim C2: scope fallback of `get_var` -/

/-- C2: a non-literal node stored only in the independent (`None`) scope is
retrievable by `get_var` under any quadrature-rule key; a node stored only
under rule `R` yields `none` under a different rule; and a literal node
always yields a directly synthesized literal access, independent of the
contents of both scope tiers. -/
theorem C2_get_var_scope_fallback (st : GenState) (R R' : QuadratureRule)
    (v : UflExpr) (a : LExpr) (hnl : v.isLiteral = false)
    (hfresh : ∀ r, get_var st r v = none) :
    (get_var (set_var st none v a) (some R) v = some a)
    ∧ (R' ≠ R → get_var (set_var st (some R) v a) (some R') v = none)
    ∧ (∀ (st₂ : GenState) (r : Option QuadratureRule) (n : Int),
        get_var st₂ r (UflExpr.lit n) = some (ufl_to_lnodes_lit (UflExpr.lit n))) := by
  refine ⟨?_, ?_, ?_⟩
  · -- independent-scope store, rule-scope retrieval through the fallback
    obtain ⟨_, hv1, hv2⟩ := get_var_none_elim (hfresh (some R))
    have h1 : alookup ((set_var st none v a).scopeOf (some R)) v = none := by
      rw [scopeOf_set_var_lookup]
      simp [hv1]
    have h2 : alookup ((set_var st none v a).scopeOf none) v = some a := by
      rw [scopeOf_set_var_lookup]
      simp
    simp only [get_var, hnl, Bool.false_eq_true, if_false, h1, h2]
  · -- rule-R store, invisible under a different rule key
    intro hne
    obtain ⟨_, hv1, hv2⟩ := get_var_none_elim (hfresh (some R'))
    have h1 : alookup ((set_var st (some R) v a).scopeOf (some R')) v = none := by
      have hcond : ¬ (some R = some R' ∧ v = v) := by
        intro h
        exact hne (by injection h.1 with h1; exact h1.symm)
      rw [scopeOf_set_var_lookup, if_neg hcond]
      exact hv1
    have h2 : alookup ((set_var st (some R) v a).scopeOf none) v = none := by
      rw [scopeOf_set_var_lookup]
      simp [hv2]
    simp only [get_var, hnl, Bool.false_eq_true, if_false, h1, h2]
  · intro st₂ r n
    simp [get_var, UflExpr.isLiteral]

theorem scopeOf_all_nil {l : List (Option QuadratureRule × Scope)}
    (h : ∀ p ∈ l, p.2 = ([] : Scope)) (r : Option QuadratureRule) :
    (alookup l r).getD [] = [] := by
  induction l with
  | nil => simp [alookup]
  | cons p rest ih =>
      obtain ⟨k, s⟩ := p
      have hs : s = [] := h (k, s) (by simp)
      by_cases hk : k = r
      · simp [alookup, hk, hs]
      · simp only [alookup, hk, if_false]
        exact ih (fun q hq => h q (List.mem_cons_of_mem _ hq))

theorem scopeOf_init_state (ir : IR) (r : Option QuadratureRule) :
    (init_state ir).scopeOf r = [] := by
  apply scopeOf_all_nil
  intro p hp
  simp only [init_state, List.mem_append, List.mem_map, List.mem_singleton] at hp
  rcases hp with ⟨q, _, rfl⟩ | rfl
  · rfl
  · rfl

theorem get_var_init_state (ir : IR) (r : Option QuadratureRule) (v : UflExpr)
    (hnl : v.isLiteral = false) : get_var (init_state ir) r v = none := by
  simp [get_var, hnl, scopeOf_init_state, alookup]

/-- Witness for C2 at concrete inputs. -/
theorem C2_get_var_scope_fallback_witness :
    (get_var (set_var (init_state ⟨[(⟨0, [1]⟩, ⟨⟨[]⟩, [], []⟩), (⟨1, [1]⟩, ⟨⟨[]⟩, [], []⟩)],
        "cell", "cell", [3], [], [], [], []⟩) none (.terminal 5) (.sym "x" .SCALAR))
      (some ⟨0, [1]⟩) (.terminal 5) = some (.sym "x" .SCALAR))
    ∧ (get_var (set_var (init_state ⟨[(⟨0, [1]⟩, ⟨⟨[]⟩, [], []⟩), (⟨1, [1]⟩, ⟨⟨[]⟩, [], []⟩)],
        "cell", "cell", [3], [], [], [], []⟩) (some ⟨0, [1]⟩) (.terminal 5) (.sym "x" .SCALAR))
      (some ⟨1, [1]⟩) (.terminal 5) = none) := by
  have h := C2_get_var_scope_fallback
    (init_state ⟨[(⟨0, [1]⟩, ⟨⟨[]⟩, [], []⟩), (⟨1, [1]⟩, ⟨⟨[]⟩, [], []⟩)],
      "cell", "cell", [3], [], [], [], []⟩) ⟨0, [1]⟩ ⟨1, [1]⟩ (.terminal 5) (.sym "x" .SCALAR)
    (by decide) (fun r => get_var_init_state _ r _ (by decide))
  exact ⟨h.1, h.2.1 (by decide)⟩

theorem mapM_operandDtype_cons (op : Operand) (rest : List Operand) :
    (op :: rest).mapM operandDtype =
      match operandDtype op with
      | .error e => .error e
      | .ok d =>
          match rest.mapM operandDtype with
          | .error e => .error e
          | .ok ds => .ok (d :: ds) := by
  rw [List.mapM_cons]
  cases hop : operandDtype op
  · simp [Bind.bind, Except.bind]
  · cases hrest : rest.mapM operandDtype <;>
      simp [Bind.bind, Except.bind, hrest, Pure.pure, Except.pure]

theorem mapM_operandDtype_ok (vops : List Operand)
    (h : ∀ op ∈ vops, op.isNoSignal = false) :
    vops.mapM operandDtype = .ok (vops.map Operand.signalDtype) := by
  induction vops with
  | nil => rfl
  | cons op rest ih =>
      have hop := h op (by simp)
      have hrest := ih (fun q hq => h q (by simp [hq]))
      rw [mapM_operandDtype_cons, hrest]
      cases op <;> simp_all [operandDtype, Operand.signalDtype, Operand.isNoSignal]

theorem mapM_operandDtype_error (vops : List Operand)
    (h : ∃ op ∈ vops, op.isNoSignal = true) :
    ∃ e, vops.mapM operandDtype = .error e := by
  induction vops with
  | nil => simp at h
  | cons op rest ih =>
      by_cases hop : op.isNoSignal = true
      · rcases op with dt | dt | n | d <;> simp only [Operand.isNoSignal] at hop
        · exact absurd hop (by simp)
        · exact absurd hop (by simp)
        · exact absurd hop (by simp)
        · exact ⟨_, by rw [mapM_operandDtype_cons]; rfl⟩
      · have hrest : ∃ q ∈ rest, q.isNoSignal = true := by
          obtain ⟨q, hq, hbad⟩ := h
          rcases List.mem_cons.mp hq with rfl | hq
          · exact absurd hbad hop
          · exact ⟨q, hq, hbad⟩
        obtain ⟨e, he⟩ := ih hrest
        refine ⟨e, ?_⟩
        rw [mapM_operandDtype_cons, he]
        rcases op with dt | dt | n | d <;> simp [operandDtype, Operand.isNoSignal] at hop ⊢

/-- C9: `extract_dtype` fails exactly when some operand exposes neither a
`dtype` attribute, nor a `symbol` attribute carrying a dtype, nor is an
integer value; on well-shaped operands it returns `BOOL` for a condition
and the merged operand dtypes otherwise. -/
theorem C9_extract_dtype_fail_fast (v : UflExpr) (vops : List Operand) :
    ((∃ e, extract_dtype v vops = .error e) ↔ ∃ op ∈ vops, op.isNoSignal = true)
    ∧ ((∀ op ∈ vops, op.isNoSignal = false) →
        extract_dtype v vops =
          .ok (if v.isCondition then .BOOL else merge_dtypes (vops.map Operand.signalDtype))) := by
  have hok : (∀ op ∈ vops, op.isNoSignal = false) →
      extract_dtype v vops =
        .ok (if v.isCondition then .BOOL else merge_dtypes (vops.map Operand.signalDtype)) := by
    intro h
    simp only [extract_dtype, Bind.bind, Except.bind]
    rw [mapM_operandDtype_ok vops h]
    by_cases hc : v.isCondition <;> simp [hc, Pure.pure, Except.pure]
  refine ⟨⟨?_, ?_⟩, hok⟩
  · rintro ⟨e, he⟩
    by_contra hno
    push_neg at hno
    have : ∀ op ∈ vops, op.isNoSignal = false := by
      intro op hop
      have := hno op hop
      simpa using this
    rw [hok this] at he
    exact absurd he (by simp)
  · intro h
    obtain ⟨e, he⟩ := mapM_operandDtype_error vops h
    refine ⟨e, ?_⟩
    simp only [extract_dtype, Bind.bind, Except.bind]
    rw [he]

/-- Witness for C9 at concrete inputs: a condition with well-shaped
operands yields `BOOL`; an operand exposing no dtype signal makes the merge
fail. -/
theorem C9_extract_dtype_fail_fast_witness :
    extract_dtype (.operator "lt" true .nil) [.hasDtype .REAL, .pyInt 2] = .ok .BOOL
    ∧ ∃ e, extract_dtype (.operator "sum" false .nil)
        [.hasDtype .REAL, .noSignal "NoneType"] = .error e := by
  constructor
  · have h := (C9_extract_dtype_fail_fast (.operator "lt" true .nil)
      [.hasDtype .REAL, .pyInt 2]).2 (by decide)
    simpa using h
  · exact (C9_extract_dtype_fail_fast (.operator "sum" false .nil)
      [.hasDtype .REAL, .noSignal "NoneType"]).1.mpr
      ⟨.noSignal "NoneType", by simp, rfl⟩

/-! ### Claim C3: dofblock canonicalization -/

theorem group_blocks_mono (blocks : List (BlockMap × BlockDataT)) :
    ∀ (gs gs' : List (BlockMap × List BlockDataT)),
    group_blocks blocks gs = .ok gs' → ∀ (k : BlockMap) (l : List BlockDataT),
    alookup gs k = some l → ∃ ext, alookup gs' k = some (l ++ ext) := by
  induction blocks with
  | nil =>
      intro gs gs' hok k l hl
      simp only [group_blocks] at hok
      cases hok
      exact ⟨[], by simp [hl]⟩
  | cons p rest ih =>
      intro gs gs' hok k l hl
      obtain ⟨bm, bd⟩ := p
      cases hs : scalar_blockmap bm bd with
      | error e => simp [group_blocks, hs, Bind.bind, Except.bind] at hok
      | ok sbm =>
          have hok' : group_blocks rest (gappend gs sbm bd) = .ok gs' := by
            simpa [group_blocks, hs, Bind.bind, Except.bind] using hok
          by_cases hk : sbm = k
          · subst hk
            have hstep : alookup (gappend gs sbm bd) sbm = some (l ++ [bd]) := by
              rw [alookup_gappend_self, hl]
              rfl
            obtain ⟨ext, hext⟩ := ih _ _ hok' sbm (l ++ [bd]) hstep
            exact ⟨[bd] ++ ext, by simpa [List.append_assoc] using hext⟩
          · have hstep : alookup (gappend gs sbm bd) k = some l := by
              rw [alookup_gappend_other _ _ hk]
              exact hl
            exact ih _ _ hok' k l hstep

theorem group_blocks_mem (blocks : List (BlockMap × BlockDataT)) :
    ∀ (gs gs' : List (BlockMap × List BlockDataT)),
    group_blocks blocks gs = .ok gs' →
    ∀ (bm : BlockMap) (bd : BlockDataT) (sbm : BlockMap),
    (bm, bd) ∈ blocks → scalar_blockmap bm bd = .ok sbm →
    ∃ l, alookup gs' sbm = some l ∧ bd ∈ l := by
  induction blocks with
  | nil =>
      intro gs gs' hok bm bd sbm hmem
      simp at hmem
  | cons p rest ih =>
      intro gs gs' hok bm bd sbm hmem hs
      obtain ⟨bm', bd'⟩ := p
      cases hs' : scalar_blockmap bm' bd' with
      | error e => simp [group_blocks, hs', Bind.bind, Except.bind] at hok
      | ok sbm' =>
          have hok' : group_blocks rest (gappend gs sbm' bd') = .ok gs' := by
            simpa [group_blocks, hs', Bind.bind, Except.bind] using hok
          rcases List.mem_cons.mp hmem with heq | hmem'
          · -- this record is appended here, and survives the rest of the loop
            obtain ⟨h1, h2⟩ := Prod.mk.injEq .. ▸ heq
            subst h1
            subst h2
            have hsbm : sbm' = sbm := by
              rw [hs] at hs'
              cases hs'
              rfl
            subst hsbm
            have hstep : alookup (gappend gs sbm' bd) sbm' =
                some ((alookup gs sbm').getD [] ++ [bd]) := alookup_gappend_self ..
            obtain ⟨ext, hext⟩ := group_blocks_mono rest _ _ hok' sbm' _ hstep
            exact ⟨_, hext, by simp⟩
          · exact ih _ _ hok' bm bd sbm hmem' hs

/-- Counterexample to C3 as stated: with block size 2 and offset 0 for both
records, the raw ranges `(0,2)` and `(2,4)` canonicalize to `(0,1)` and
`(1,2)` — different keys — and the grouping loop places them in two
different groups rather than one. -/
theorem C3_counterexample :
    scalar_blockmap [[0, 2]] exampleRecordOffset0 = .ok [[0, 1]]
    ∧ scalar_blockmap [[2, 4]] exampleRecordOffset0 = .ok [[1, 2]]
    ∧ group_blocks [([[0, 2]], exampleRecordOffset0), ([[2, 4]], exampleRecordOffset0)] [] =
        .ok [([[0, 1]], [exampleRecordOffset0]), ([[1, 2]], [exampleRecordOffset0])] := by
  refine ⟨by decide, by decide, by decide⟩

/-- C3 (amended): `generate_dofblock_partition` canonicalizes every raw
dofblock index `idx` of slot `i` to `(idx - offset_i) // block_size_i` and
groups records by the canonical key, so two records land in the same group
exactly when their canonical scalar blockmaps agree — e.g. raw ranges
`(0,2)` with offset 0 and `(2,4)` with offset 2 (block size 2) share the
canonical block `(0,1)` and one group. -/
theorem C3_dofblock_canonicalization (blocks : List (BlockMap × BlockDataT))
    (gs : List (BlockMap × List BlockDataT))
    (hok : group_blocks blocks [] = .ok gs)
    (bm₁ bm₂ : BlockMap) (bd₁ bd₂ : BlockDataT) (sbm : BlockMap)
    (h₁ : (bm₁, bd₁) ∈ blocks) (h₂ : (bm₂, bd₂) ∈ blocks)
    (hs₁ : scalar_blockmap bm₁ bd₁ = .ok sbm)
    (hs₂ : scalar_blockmap bm₂ bd₂ = .ok sbm) :
    ∃ g ∈ gs, g.1 = sbm ∧ bd₁ ∈ g.2 ∧ bd₂ ∈ g.2 := by
  obtain ⟨l₁, hl₁, hbd₁⟩ := group_blocks_mem blocks _ _ hok bm₁ bd₁ sbm h₁ hs₁
  obtain ⟨l₂, hl₂, hbd₂⟩ := group_blocks_mem blocks _ _ hok bm₂ bd₂ sbm h₂ hs₂
  have hll : l₁ = l₂ := by
    rw [hl₁] at hl₂
    cases hl₂
    rfl
  subst hll
  exact ⟨(sbm, l₁), alookup_mem hl₁, rfl, hbd₁, hbd₂⟩

/-- Witness for the amended C3 at the concrete example (offsets 0 and 2,
block size 2, raw ranges `(0,2)` and `(2,4)`, shared canonical block
`(0,1)`). -/
theorem C3_dofblock_canonicalization_witness :
    ∃ g ∈ [([[0, 1]], [exampleRecordOffset0, exampleRecordOffset2])],
      g.1 = [([0, 1] : List Int)] ∧ exampleRecordOffset0 ∈ g.2 ∧ exampleRecordOffset2 ∈ g.2 := by
  have h := C3_dofblock_canonicalization
    [([[0, 2]], exampleRecordOffset0), ([[2, 4]], exampleRecordOffset2)]
    [([[0, 1]], [exampleRecordOffset0, exampleRecordOffset2])]
    (by decide)
    [[0, 2]] [[2, 4]] exampleRecordOffset0 exampleRecordOffset2 [[0, 1]]
    (by decide) (by decide) (by decide) (by decide)
  exact h

theorem get_var_ufl_names (st : GenState) (ns : List String) (r : Option QuadratureRule)
    (v : UflExpr) : get_var { st with ufl_names := ns } r v = get_var st r v :=
  get_var_scopes_only _ _ rfl r v

theorem generate_partition_nodes_preserve (backend : Backend) (symName mode : String)
    (rule : Option QuadratureRule) (nodes : List (Nat × NodeAttr)) :
    ∀ (defs ints : List Stmt) (st : GenState) (d i : List Stmt) (st' : GenState),
    generate_partition_nodes backend symName mode rule nodes defs ints st = .ok (d, i, st') →
    ∀ (v : UflExpr) (a : LExpr), get_var st rule v = some a → get_var st' rule v = some a := by
  induction nodes with
  | nil =>
      intro defs ints st d i st' hok v a hv
      simp only [generate_partition_nodes] at hok
      cases hok
      exact hv
  | cons p rest ih =>
      intro defs ints st d i st' hok v a hv
      obtain ⟨idx, attr⟩ := p
      by_cases hst : attr.status = mode
      · simp only [generate_partition_nodes, hst, ne_eq, not_true_eq_false, if_false] at hok
        rcases hgv : get_var st rule attr.expression with _ | f
        · rw [hgv] at hok
          by_cases hlit : attr.expression.isLiteral
          · simp only [hlit, if_true] at hok
            exact ih _ _ _ _ _ _ hok v a
              (get_var_set_var_keep st rule rule v attr.expression a _ hv hgv)
          · simp only [hlit, if_false, Bool.false_eq_true] at hok
            rcases hmt : attr.mt with _ | mt
            · rw [hmt] at hok
              simp only [] at hok
              -- operator branch
              rcases hdt : extract_dtype attr.expression
                  ((attr.expression.operandsList.map (get_var st rule)).map operandOf) with e | dtype
              · rw [hdt] at hok
                simp [Bind.bind, Except.bind] at hok
              · rw [hdt] at hok
                simp only [Bind.bind, Except.bind] at hok
                refine ih _ _ _ _ _ _ hok v a ?_
                have hv1 : get_var { st with ufl_names := addUflName st.ufl_names attr.expression.handlerName } rule v = some a := by
                  rw [get_var_ufl_names]; exact hv
                have hgv1 : get_var { st with ufl_names := addUflName st.ufl_names attr.expression.handlerName } rule attr.expression = none := by
                  rw [get_var_ufl_names]; exact hgv
                exact get_var_set_var_keep _ rule rule v attr.expression a _ hv1 hgv1
            · rw [hmt] at hok
              by_cases hsec : backend.definitions_get mt attr.tr rule
                    (backend.access_get mt attr.tr rule) ≠ Stmt.pyNone ∧
                  (backend.definitions_get mt attr.tr rule
                    (backend.access_get mt attr.tr rule)).isSection = false
              · simp only [hsec, if_true] at hok
                cases hok
              · simp only [hsec, if_false] at hok
                exact ih _ _ _ _ _ _ hok v a
                  (get_var_set_var_keep st rule rule v attr.expression a _ hv hgv)
        · rw [hgv] at hok
          exact ih _ _ _ _ _ _ hok v a hv
      · simp only [generate_partition_nodes, ne_eq, hst, not_false_eq_true, if_true] at hok
        exact ih _ _ _ _ _ _ hok v a hv

theorem generate_partition_nodes_cover (backend : Backend) (symName mode : String)
    (rule : Option QuadratureRule) (nodes : List (Nat × NodeAttr)) :
    ∀ (defs ints : List Stmt) (st : GenState) (d i : List Stmt) (st' : GenState),
    generate_partition_nodes backend symName mode rule nodes defs ints st = .ok (d, i, st') →
    ∀ p ∈ nodes, p.2.status = mode → ∃ a, get_var st' rule p.2.expression = some a := by
  induction nodes with
  | nil =>
      intro defs ints st d i st' hok p hp
      simp at hp
  | cons q rest ih =>
      intro defs ints st d i st' hok p hp hmode
      obtain ⟨idx, attr⟩ := q
      by_cases hst : attr.status = mode
      · simp only [generate_partition_nodes, hst, ne_eq, not_true_eq_false, if_false] at hok
        rcases hgv : get_var st rule attr.expression with _ | f
        · rw [hgv] at hok
          by_cases hlit : attr.expression.isLiteral
          · simp only [hlit, if_true] at hok
            rcases List.mem_cons.mp hp with rfl | hp'
            · exact ⟨ufl_to_lnodes_lit attr.expression,
                generate_partition_nodes_preserve backend symName mode rule rest
                  _ _ _ _ _ _ hok attr.expression (ufl_to_lnodes_lit attr.expression)
                  (by simp [get_var, hlit])⟩
            · exact ih _ _ _ _ _ _ hok p hp' hmode
          · simp only [hlit, if_false, Bool.false_eq_true] at hok
            rcases hmt : attr.mt with _ | mt
            · rw [hmt] at hok
              rcases hdt : extract_dtype attr.expression
                  ((attr.expression.operandsList.map (get_var st rule)).map operandOf) with e | dtype
              · rw [hdt] at hok
                simp [Bind.bind, Except.bind] at hok
              · rw [hdt] at hok
                simp only [Bind.bind, Except.bind] at hok
                rcases List.mem_cons.mp hp with rfl | hp'
                · have hself : get_var (set_var { st with ufl_names := addUflName st.ufl_names attr.expression.handlerName } rule attr.expression
                      (LExpr.sym (s!"{symName}_{ints.length}") dtype)) rule attr.expression =
                      some (LExpr.sym (s!"{symName}_{ints.length}") dtype) :=
                    get_var_set_var_self _ rule attr.expression _ (by simpa using hlit)
                  exact ⟨_, generate_partition_nodes_preserve backend symName mode rule rest
                    _ _ _ _ _ _ hok attr.expression _ hself⟩
                · exact ih _ _ _ _ _ _ hok p hp' hmode
            · rw [hmt] at hok
              by_cases hsec : backend.definitions_get mt attr.tr rule
                    (backend.access_get mt attr.tr rule) ≠ Stmt.pyNone ∧
                  (backend.definitions_get mt attr.tr rule
                    (backend.access_get mt attr.tr rule)).isSection = false
              · simp only [hsec, if_true] at hok
                cases hok
              · simp only [hsec, if_false] at hok
                rcases List.mem_cons.mp hp with rfl | hp'
                · have hself : get_var (set_var st rule attr.expression
                      (backend.access_get mt attr.tr rule)) rule attr.expression =
                      some (backend.access_get mt attr.tr rule) :=
                    get_var_set_var_self st rule attr.expression _ (by simpa using hlit)
                  exact ⟨_, generate_partition_nodes_preserve backend symName mode rule rest
                    _ _ _ _ _ _ hok attr.expression _ hself⟩
                · exact ih _ _ _ _ _ _ hok p hp' hmode
        · rw [hgv] at hok
          rcases List.mem_cons.mp hp with rfl | hp'
          · exact ⟨f, generate_partition_nodes_preserve backend symName mode rule rest
              _ _ _ _ _ _ hok attr.expression f hgv⟩
          · exact ih _ _ _ _ _ _ hok p hp' hmode
      · simp only [generate_partition_nodes, ne_eq, hst, not_false_eq_true, if_true] at hok
        rcases List.mem_cons.mp hp with rfl | hp'
        · exact absurd hmode hst
        · exact ih _ _ _ _ _ _ hok p hp' hmode

theorem generate_partition_nodes_idem (backend : Backend) (symName mode : String)
    (rule : Option QuadratureRule) (nodes : List (Nat × NodeAttr)) :
    ∀ (defs ints : List Stmt) (st : GenState),
    (∀ p ∈ nodes, p.2.status = mode → ∃ a, get_var st rule p.2.expression = some a) →
    generate_partition_nodes backend symName mode rule nodes defs ints st = .ok (defs, ints, st) := by
  induction nodes with
  | nil =>
      intro defs ints st _
      simp [generate_partition_nodes]
  | cons q rest ih =>
      intro defs ints st hcov
      obtain ⟨idx, attr⟩ := q
      by_cases hst : attr.status = mode
      · obtain ⟨a, ha⟩ := hcov (idx, attr) (by simp) hst
        simp only [generate_partition_nodes, hst, ne_eq, not_true_eq_false, if_false, ha]
        exact ih _ _ _ (fun p hp hm => hcov p (List.mem_cons_of_mem _ hp) hm)
      · simp only [generate_partition_nodes, ne_eq, hst, not_false_eq_true, if_true]
        exact ih _ _ _ (fun p hp hm => hcov p (List.mem_cons_of_mem _ hp) hm)

/-- C1: idempotent lowering in `generate_partition`.  After one successful
run every covered node is cached, a second identical run emits no
definition and no intermediate and leaves the state untouched, and every
access recorded before the run is still returned unchanged afterwards. -/
theorem C1_generate_partition_idempotent (backend : Backend) (symbol : LExpr) (F : FGraph)
    (mode : String) (rule : Option QuadratureRule) (st : GenState)
    (d₁ i₁ : List Stmt) (st₁ : GenState)
    (hrun : generate_partition backend symbol F mode rule st = .ok (d₁, i₁, st₁)) :
    generate_partition backend symbol F mode rule st₁ = .ok ([], [], st₁)
    ∧ (∀ (v : UflExpr) (a : LExpr), get_var st rule v = some a →
        get_var st₁ rule v = some a) := by
  rcases hnr : generate_partition_nodes backend symbol.symName mode rule F.nodes [] [] st with
    e | ⟨d', i', st''⟩
  · rw [generate_partition, hnr] at hrun
    simp [Bind.bind, Except.bind] at hrun
  · rw [generate_partition, hnr] at hrun
    simp only [Bind.bind, Except.bind] at hrun
    injection hrun with hrun'
    rw [Prod.mk.injEq, Prod.mk.injEq] at hrun'
    obtain ⟨hd, hi, hst⟩ := hrun'
    subst hd
    subst hi
    subst hst
    constructor
    · have hcov := generate_partition_nodes_cover backend symbol.symName mode rule F.nodes
        _ _ _ _ _ _ hnr
      have hidem := generate_partition_nodes_idem backend symbol.symName mode rule F.nodes
        [] [] st'' hcov
      rw [generate_partition, hidem]
      rfl
    · exact fun v a hv =>
        generate_partition_nodes_preserve backend symbol.symName mode rule F.nodes
          _ _ _ _ _ _ hnr v a hv

/-- Witness for C1: a concrete first run caches all three nodes, the second
run emits nothing and leaves the state unchanged, and lookups still return
the synthesized accesses. -/
theorem C1_generate_partition_idempotent_witness :
    generate_partition exampleBackend (.sym "sp_0" .SCALAR) exampleF "piecewise" none
        exampleStOne = .ok ([], [], exampleStOne)
    ∧ get_var exampleStOne none (.lit 5) = some (.litFloat 5) := by
  have h := C1_generate_partition_idempotent exampleBackend (.sym "sp_0" .SCALAR) exampleF
    "piecewise" none (init_state exampleIR)
    [.sectionNode "defsec" .nil .nil [] [.sym "acc" .SCALAR] []]
    [.varDecl (.sym "sp_0_0" .SCALAR)
      (.uflOp "sum" (.cons (.litFloat 2) (.cons (.sym "acc" .SCALAR) .nil)))]
    exampleStOne (by decide)
  exact ⟨h.1, h.2 (.lit 5) (.litFloat 5) (by decide)⟩

theorem block_data_step_error_zeros (ir : IR) (backend : Backend) (rule : QuadratureRule)
    (blockmap : BlockMap) (block_rank : Nat) (iq : LoopIndex) (bd : BlockDataT)
    (hz : bd.ttypes.contains "zeros" = true) (st : GenState) :
    ∃ e, block_data_step ir backend rule blockmap block_rank iq bd st = .error e := by
  simp only [block_data_step, Bind.bind, Except.bind]
  cases hB : build_B_indices backend bd (List.range block_rank) with
  | error e => exact ⟨e, rfl⟩
  | ok Bi =>
      simp only [hz, if_true]
      exact ⟨_, rfl⟩

theorem block_data_step_error_nonscalar (ir : IR) (backend : Backend) (rule : QuadratureRule)
    (blockmap : BlockMap) (block_rank : Nat) (iq : LoopIndex) (bd : BlockDataT)
    (hlen : 1 < bd.factor_indices_comp_indices.length) (st : GenState) :
    ∃ e, block_data_step ir backend rule blockmap block_rank iq bd st = .error e := by
  simp only [block_data_step, Bind.bind, Except.bind]
  cases hB : build_B_indices backend bd (List.range block_rank) with
  | error e => exact ⟨e, rfl⟩
  | ok Bi =>
      by_cases hz : bd.ttypes.contains "zeros" = true
      · simp only [hz, if_true]
        exact ⟨_, rfl⟩
      · simp only [eq_false_of_ne_true hz, Bool.false_eq_true, if_false, hlen, if_true]
        exact ⟨_, rfl⟩

theorem generate_block_parts_go_error (ir : IR) (backend : Backend) (rule : QuadratureRule)
    (blockmap : BlockMap) (block_rank : Nat) (iq : LoopIndex) (blocklist : List BlockDataT)
    (bd : BlockDataT) (hbd : bd ∈ blocklist)
    (hstep : ∀ st, ∃ e, block_data_step ir backend rule blockmap block_rank iq bd st = .error e) :
    ∀ rhs inter tables vars lastB st,
    ∃ e, generate_block_parts_go ir backend rule blockmap block_rank iq blocklist
      rhs inter tables vars lastB st = .error e := by
  induction blocklist with
  | nil => simp at hbd
  | cons b rest ih =>
      intro rhs inter tables vars lastB st
      rcases List.mem_cons.mp hbd with rfl | hbd'
      · obtain ⟨e, he⟩ := hstep st
        exact ⟨e, by simp only [generate_block_parts_go, Bind.bind, Except.bind, he]⟩
      · simp only [generate_block_parts_go, Bind.bind, Except.bind]
        cases hs : block_data_step ir backend rule blockmap block_rank iq b st with
        | error e => exact ⟨e, rfl⟩
        | ok out =>
            obtain ⟨⟨Bi, Ai, Brhs, var, table, interNew⟩, st'⟩ := out
            exact ih hbd' _ _ _ _ _ _

theorem generate_block_parts_error_of_step (ir : IR) (backend : Backend)
    (rule : QuadratureRule) (blockmap : BlockMap) (blocklist : List BlockDataT)
    (bd : BlockDataT) (hbd : bd ∈ blocklist)
    (hstep : ∀ st, ∃ e, block_data_step ir backend rule blockmap blockmap.length
      (create_quadrature_index (some rule) backend.quadrature_loop_index) bd st = .error e)
    (st : GenState) :
    ∃ e, generate_block_parts ir backend rule blockmap blocklist st = .error e := by
  obtain ⟨e, he⟩ := generate_block_parts_go_error ir backend rule blockmap blockmap.length
    (create_quadrature_index (some rule) backend.quadrature_loop_index) blocklist bd hbd hstep
    [] [] [] [] none st
  exact ⟨e, by simp only [generate_block_parts, Bind.bind, Except.bind, he]⟩

theorem get_arg_factors_go_error_zeros (ir : IR) (backend : Backend) (bd : BlockDataT)
    (rule : QuadratureRule) (iq : LoopIndex) (indices : List LoopIndex)
    (i : Nat) (mad : MAData) (hmad : bd.ma_data[i]? = some mad)
    (hzt : mad.tabledata.ttype = "zeros") :
    ∀ (idxs : List Nat), i ∈ idxs →
    ∃ e, get_arg_factors_go ir backend bd rule iq indices idxs = .error e := by
  intro idxs
  induction idxs with
  | nil => simp
  | cons j rest ih =>
      intro hmem
      simp only [get_arg_factors_go, Bind.bind, Except.bind, Pure.pure, Except.pure]
      cases hj : pyGet bd.ma_data j with
      | error e => exact ⟨e, rfl⟩
      | ok madj =>
          dsimp only
          cases hird : ir.integrandOf rule with
          | none => exact ⟨_, rfl⟩
          | some d =>
              dsimp only
              cases hmt : pyGet d.modified_arguments madj.ma_index with
              | error e => exact ⟨e, rfl⟩
              | ok mt =>
                  dsimp only
                  by_cases hjz : madj.tabledata.ttype = "zeros"
                  · rw [if_pos hjz]
                    exact ⟨_, rfl⟩
                  · rw [if_neg hjz]
                    have hji : j ≠ i := by
                      intro hji
                      subst hji
                      rw [pyGet, hmad] at hj
                      cases hj
                      exact hjz hzt
                    have hirest : i ∈ rest := by
                      rcases List.mem_cons.mp hmem with rfl | h
                      · exact absurd rfl hji
                      · exact h
                    obtain ⟨e, he⟩ := ih hirest
                    by_cases ho : madj.tabledata.ttype = "ones"
                    · rw [if_pos ho, he]
                      exact ⟨e, rfl⟩
                    · rw [if_neg ho]
                      cases hpi : pyGet indices j with
                      | error e2 => exact ⟨e2, rfl⟩
                      | ok idx =>
                          rw [he]
                          exact ⟨e, rfl⟩

theorem block_data_step_eq (ir : IR) (backend : Backend) (rule : QuadratureRule)
    (blockmap : BlockMap) (block_rank : Nat) (iq : LoopIndex) (bd : BlockDataT)
    (st : GenState) (Bi : List LoopIndex) (fi ci : Nat) (d : IntegrandData)
    (vattr : NodeAttr) (f : LExpr) (argf tbls : List LExpr) (Ai : List LExpr)
    (nm : String) (defined : Bool) (st₂ : GenState)
    (hB : build_B_indices backend bd (List.range block_rank) = .ok Bi)
    (hz : bd.ttypes.contains "zeros" = false)
    (hfic : bd.factor_indices_comp_indices = [(fi, ci)])
    (hF : ir.integrandOf rule = some d)
    (hv : alookup d.factorization.nodes fi = some vattr)
    (hget : get_var st (some rule) vattr.expression = some f)
    (hprod : (float_product [f, block_weight ir backend rule iq]).isProduct = true)
    (htr : bd.transposed = false)
    (hargs : get_arg_factors ir backend bd block_rank rule iq Bi = .ok (argf, tbls))
    (hA : build_A_indices blockmap bd Bi (List.range block_rank) = .ok Ai)
    (hfw : get_temp_symbol st "fw" (some rule, fi, bd.all_factors_piecewise) =
      ((.sym nm .SCALAR, defined), st₂)) :
    block_data_step ir backend rule blockmap block_rank iq bd st =
      .ok ((Bi, Ai, float_product (.sym nm .SCALAR :: argf), .sym nm .SCALAR, tbls,
        if defined then [] else
          [.varDecl (.sym nm .SCALAR)
            (float_product [f, block_weight ir backend rule iq])]), st₂) := by
  simp only [block_data_step, Bind.bind, Except.bind, Pure.pure, Except.pure]
  rw [hB]
  try dsimp only
  rw [hz]
  simp only [Bool.false_eq_true, if_false]
  rw [hfic]
  simp only [List.length_singleton, Nat.lt_irrefl, if_false]
  simp only [pyGet, List.getElem?_cons_zero]
  try dsimp only
  rw [hF]
  try dsimp only
  rw [hv]
  try dsimp only
  rw [hget]
  try dsimp only
  rw [hprod]
  simp only [Bool.true_eq_false, if_false]
  rw [hfw]
  try dsimp only
  cases defined with
  | true =>
      simp only [if_true]
      try dsimp only
      try rw [htr]
      try simp only [Bool.false_eq_true, if_false]
      try rw [hargs]
      try dsimp only
      try rw [hA]
      try dsimp only
      try rfl
  | false =>
      try simp only [Bool.false_eq_true, if_false]
      try dsimp only
      try rw [htr]
      try simp only [Bool.false_eq_true, if_false]
      try rw [hargs]
      try dsimp only
      try rw [hA]
      try dsimp only
      try rfl

/-- C6: a block-data record whose ttypes contain "zeros" makes
`generate_block_parts` fail with the designated RuntimeError, and an
argument slot whose table reference has ttype "zeros" makes
`get_arg_factors` fail its assertion; no zero contribution is ever
emitted silently. -/
theorem C6_zero_table_rejection (ir : IR) (backend : Backend) (rule : QuadratureRule)
    (blockmap : BlockMap) (blocklist : List BlockDataT) (st : GenState)
    (bd : BlockDataT) (hbd : bd ∈ blocklist) (hz : bd.ttypes.contains "zeros" = true) :
    (∃ e, generate_block_parts ir backend rule blockmap blocklist st = .error e)
    ∧ (∀ (bd₂ : BlockDataT) (rank : Nat) (iq : LoopIndex) (indices : List LoopIndex)
        (i : Nat) (mad : MAData), i < rank → bd₂.ma_data[i]? = some mad →
        mad.tabledata.ttype = "zeros" →
        ∃ e, get_arg_factors ir backend bd₂ rank rule iq indices = .error e) := by
  constructor
  · exact generate_block_parts_error_of_step ir backend rule blockmap blocklist bd hbd
      (fun st' => block_data_step_error_zeros ir backend rule blockmap blockmap.length _ bd hz st') st
  · intro bd₂ rank iq indices i mad hi hmad hzt
    exact get_arg_factors_go_error_zeros ir backend bd₂ rule iq indices i mad hmad hzt
      (List.range rank) (List.mem_range.mpr hi)

/-- Witness for C6 at concrete inputs. -/
theorem C6_zero_table_rejection_witness :
    (∃ e, generate_block_parts exampleIR exampleBackend exampleRule [[0, 1]] [zeroRecord]
        (init_state exampleIR) = .error e)
    ∧ (∃ e, get_arg_factors exampleIR exampleBackend zeroRecord 1 exampleRule
        ⟨.sym "iq" .INT, .litInt 2⟩ [] = .error e) := by
  have h := C6_zero_table_rejection exampleIR exampleBackend exampleRule [[0, 1]] [zeroRecord]
    (init_state exampleIR) zeroRecord (by decide) (by decide)
  exact ⟨h.1, h.2 zeroRecord 1 ⟨.sym "iq" .INT, .litInt 2⟩ [] 0 ⟨0, ⟨"zeros", 1, 0, 2⟩⟩
    (by decide) (by decide) rfl⟩

/-- C7: a record with more than one scalar factor-index/component-index
pair makes `generate_block_parts` raise; with exactly one pair the
per-record step proceeds, fetching the factor expression of that single
factor index and producing the block right-hand side from it. -/
theorem C7_nonscalar_rejection (ir : IR) (backend : Backend) (rule : QuadratureRule)
    (blockmap : BlockMap) :
    (∀ (blocklist : List BlockDataT) (st : GenState) (bd : BlockDataT),
      bd ∈ blocklist → 1 < bd.factor_indices_comp_indices.length →
      ∃ e, generate_block_parts ir backend rule blockmap blocklist st = .error e)
    ∧ (∀ (block_rank : Nat) (iq : LoopIndex) (bd : BlockDataT) (st : GenState)
        (Bi : List LoopIndex) (fi ci : Nat) (d : IntegrandData) (vattr : NodeAttr)
        (f : LExpr) (argf tbls : List LExpr) (Ai : List LExpr) (nm : String)
        (defined : Bool) (st₂ : GenState),
        build_B_indices backend bd (List.range block_rank) = .ok Bi →
        bd.ttypes.contains "zeros" = false →
        bd.factor_indices_comp_indices = [(fi, ci)] →
        ir.integrandOf rule = some d →
        alookup d.factorization.nodes fi = some vattr →
        get_var st (some rule) vattr.expression = some f →
        (float_product [f, block_weight ir backend rule iq]).isProduct = true →
        bd.transposed = false →
        get_arg_factors ir backend bd block_rank rule iq Bi = .ok (argf, tbls) →
        build_A_indices blockmap bd Bi (List.range block_rank) = .ok Ai →
        get_temp_symbol st "fw" (some rule, fi, bd.all_factors_piecewise) =
          ((.sym nm .SCALAR, defined), st₂) →
        block_data_step ir backend rule blockmap block_rank iq bd st =
          .ok ((Bi, Ai, float_product (.sym nm .SCALAR :: argf), .sym nm .SCALAR, tbls,
            if defined then [] else [.varDecl (.sym nm .SCALAR)
              (float_product [f, block_weight ir backend rule iq])]), st₂)) := by
  constructor
  · intro blocklist st bd hbd hlen
    exact generate_block_parts_error_of_step ir backend rule blockmap blocklist bd hbd
      (fun st' => block_data_step_error_nonscalar ir backend rule blockmap blockmap.length _
        bd hlen st') st
  · intro block_rank iq bd st Bi fi ci d vattr f argf tbls Ai nm defined st₂
      hB hz hfic hF hv hget hprod htr hargs hA hfw
    exact block_data_step_eq ir backend rule blockmap block_rank iq bd st Bi fi ci d vattr
      f argf tbls Ai nm defined st₂ hB hz hfic hF hv hget hprod htr hargs hA hfw

/-- Witness for C7 at concrete inputs: the two-pair record is rejected, the
single-pair record is lowered using its factor index. -/
theorem C7_nonscalar_rejection_witness :
    (∃ e, generate_block_parts exampleIR exampleBackend exampleRule [[0, 1]]
        [multiFactorRecord] (init_state exampleIR) = .error e)
    ∧ block_data_step exampleIR exampleBackend exampleRule [[0, 1]] 1 exampleIq
        exampleBd1 exampleStFactor =
      .ok (([⟨.sym "ic0" .INT, .litInt 2⟩],
            [.add (.mul (.litInt 2) (.sym "ic0" .INT)) (.litInt 0)],
            float_product (.sym "fw0" .SCALAR ::
              [.arrayAccess (.sym "FE" .REAL) (.sym "ic0" .INT)]),
            .sym "fw0" .SCALAR,
            [.sym "FE" .REAL],
            if false then [] else [.varDecl (.sym "fw0" .SCALAR)
              (float_product [.sym "w0" .SCALAR,
                block_weight exampleIR exampleBackend exampleRule exampleIq])]),
        exampleStFw) := by
  have h := C7_nonscalar_rejection exampleIR exampleBackend exampleRule [[0, 1]]
  refine ⟨h.1 [multiFactorRecord] (init_state exampleIR) multiFactorRecord (by decide)
    (by decide), ?_⟩
  exact h.2 1 exampleIq exampleBd1 exampleStFactor
    [⟨.sym "ic0" .INT, .litInt 2⟩] 2 0
    ⟨exampleF, [([[0, 2]], [exampleRecordOffset0])], [⟨none, none⟩]⟩
    ⟨"piecewise", exampleOpNode, none, none⟩
    (.sym "w0" .SCALAR)
    [.arrayAccess (.sym "FE" .REAL) (.sym "ic0" .INT)] [.sym "FE" .REAL]
    [.add (.mul (.litInt 2) (.sym "ic0" .INT)) (.litInt 0)]
    "fw0" false exampleStFw
    (by decide) (by decide) rfl (by decide) (by decide) (by decide) (by decide) rfl
    (by decide) (by decide) (by decide)

theorem new_temp_symbol_scopes (st : GenState) (b : String) :
    (new_temp_symbol st b).2.scopes = st.scopes := rfl

theorem get_temp_symbol_fresh (st : GenState) (n : String)
    (key : Option QuadratureRule × Nat × Bool)
    (hfresh : alookup st.temp_symbols (n, key) = none) :
    get_temp_symbol st n key =
      (((new_temp_symbol st n).1, false),
       { (new_temp_symbol st n).2 with
          temp_symbols := aupdate (new_temp_symbol st n).2.temp_symbols (n, key)
            (new_temp_symbol st n).1 }) := by
  rw [get_temp_symbol, hfresh]

theorem get_temp_symbol_cached (st : GenState) (n : String)
    (key : Option QuadratureRule × Nat × Bool) (s : LExpr)
    (hhit : alookup st.temp_symbols (n, key) = some s) :
    get_temp_symbol st n key = ((s, true), st) := by
  rw [get_temp_symbol, hhit]

/-- C5: two block terms of one group with the same quadrature rule, the
same factor index and the same all-factors-piecewise flag, whose
factor-weight product is a non-trivial `Product`, share a single cached
`fw` temporary: `generate_block_parts` emits exactly one `VariableDecl`
for it, and the right-hand sides recorded for both terms multiply the same
`fw` symbol with their argument factors. -/
theorem C5_weight_product_caching (ir : IR) (backend : Backend) (rule : QuadratureRule)
    (blockmap : BlockMap) (bd₁ bd₂ : BlockDataT) (st : GenState)
    (fi ci₁ ci₂ : Nat) (d : IntegrandData) (vattr : NodeAttr) (f : LExpr)
    (Bi₁ Bi₂ : List LoopIndex) (argf₁ tbls₁ argf₂ tbls₂ : List LExpr) (Ai₁ Ai₂ : List LExpr)
    (hB₁ : build_B_indices backend bd₁ (List.range blockmap.length) = .ok Bi₁)
    (hB₂ : build_B_indices backend bd₂ (List.range blockmap.length) = .ok Bi₂)
    (hz₁ : bd₁.ttypes.contains "zeros" = false)
    (hz₂ : bd₂.ttypes.contains "zeros" = false)
    (hfic₁ : bd₁.factor_indices_comp_indices = [(fi, ci₁)])
    (hfic₂ : bd₂.factor_indices_comp_indices = [(fi, ci₂)])
    (hflag : bd₂.all_factors_piecewise = bd₁.all_factors_piecewise)
    (hF : ir.integrandOf rule = some d)
    (hv : alookup d.factorization.nodes fi = some vattr)
    (hget : get_var st (some rule) vattr.expression = some f)
    (hprod : (float_product [f, block_weight ir backend rule
        (create_quadrature_index (some rule) backend.quadrature_loop_index)]).isProduct = true)
    (htr₁ : bd₁.transposed = false) (htr₂ : bd₂.transposed = false)
    (hargs₁ : get_arg_factors ir backend bd₁ blockmap.length rule
        (create_quadrature_index (some rule) backend.quadrature_loop_index) Bi₁ =
        .ok (argf₁, tbls₁))
    (hargs₂ : get_arg_factors ir backend bd₂ blockmap.length rule
        (create_quadrature_index (some rule) backend.quadrature_loop_index) Bi₂ =
        .ok (argf₂, tbls₂))
    (hA₁ : build_A_indices blockmap bd₁ Bi₁ (List.range blockmap.length) = .ok Ai₁)
    (hA₂ : build_A_indices blockmap bd₂ Bi₂ (List.range blockmap.length) = .ok Ai₂)
    (hfresh : alookup st.temp_symbols ("fw", some rule, fi, bd₁.all_factors_piecewise) = none)
    (htbl : ∀ t ∈ tbls₁ ++ tbls₂, t.isSym = true)
    (hAsym : backend.element_tensor.isSym = true) :
    ∃ (nm : String) (st' : GenState) (qp : List Stmt),
      generate_block_parts_go ir backend rule blockmap blockmap.length
          (create_quadrature_index (some rule) backend.quadrature_loop_index) [bd₁, bd₂]
          [] [] [] [] none st =
        .ok (gappend (gappend [] Ai₁ (float_product (.sym nm .SCALAR :: argf₁)))
               Ai₂ (float_product (.sym nm .SCALAR :: argf₂)),
             [Stmt.varDecl (.sym nm .SCALAR) (float_product [f, block_weight ir backend rule
               (create_quadrature_index (some rule) backend.quadrature_loop_index)])],
             tbls₁ ++ tbls₂, [.sym nm .SCALAR, .sym nm .SCALAR], some Bi₂, st')
      ∧ generate_block_parts ir backend rule blockmap [bd₁, bd₂] st =
        .ok ((qp, [Stmt.varDecl (.sym nm .SCALAR) (float_product [f, block_weight ir backend rule
               (create_quadrature_index (some rule) backend.quadrature_loop_index)])]), st') := by
  set iq := create_quadrature_index (some rule) backend.quadrature_loop_index with hiqdef
  rcases hnew : new_temp_symbol st "fw" with ⟨fwsym, stc⟩
  obtain ⟨nm, hnm⟩ : ∃ nm, (new_temp_symbol st "fw").1 = LExpr.sym nm .SCALAR := ⟨_, rfl⟩
  rw [hnew] at hnm
  dsimp only at hnm
  subst hnm
  have hstc : stc = (new_temp_symbol st "fw").2 := by rw [hnew]
  have hscopes_stc : stc.scopes = st.scopes := by
    rw [hstc]
    rfl
  set stA : GenState :=
    { stc with temp_symbols :=
        (aupdate stc.temp_symbols ("fw", some rule, fi, bd₁.all_factors_piecewise)
          (LExpr.sym nm .SCALAR)) }
    with hstAdef
  have hfw₁ : get_temp_symbol st "fw" (some rule, fi, bd₁.all_factors_piecewise) =
      ((LExpr.sym nm .SCALAR, false), stA) := by
    rw [get_temp_symbol_fresh st "fw" _ hfresh, hnew]
  have hstep₁ := block_data_step_eq ir backend rule blockmap blockmap.length iq bd₁ st
    Bi₁ fi ci₁ d vattr f argf₁ tbls₁ Ai₁ nm false stA
    hB₁ hz₁ hfic₁ hF hv hget hprod htr₁ hargs₁ hA₁ hfw₁
  have hscopesA : stA.scopes = st.scopes := by rw [hstAdef]; exact hscopes_stc
  have hgetA : get_var stA (some rule) vattr.expression = some f := by
    rw [get_var_scopes_only stA st hscopesA]
    exact hget
  have hhit : alookup stA.temp_symbols ("fw", some rule, fi, bd₂.all_factors_piecewise) =
      some (LExpr.sym nm .SCALAR) := by
    rw [hflag, hstAdef]
    exact alookup_aupdate_self _ _ _
  have hfw₂ : get_temp_symbol stA "fw" (some rule, fi, bd₂.all_factors_piecewise) =
      ((LExpr.sym nm .SCALAR, true), stA) := get_temp_symbol_cached _ _ _ _ hhit
  have hstep₂ := block_data_step_eq ir backend rule blockmap blockmap.length iq bd₂ stA
    Bi₂ fi ci₂ d vattr f argf₂ tbls₂ Ai₂ nm true stA
    hB₂ hz₂ hfic₂ hF hv hgetA hprod htr₂ hargs₂ hA₂ hfw₂
  have hgo : generate_block_parts_go ir backend rule blockmap blockmap.length iq [bd₁, bd₂]
      [] [] [] [] none st =
      .ok (gappend (gappend [] Ai₁ (float_product (.sym nm .SCALAR :: argf₁)))
             Ai₂ (float_product (.sym nm .SCALAR :: argf₂)),
           [Stmt.varDecl (.sym nm .SCALAR) (float_product [f, block_weight ir backend rule iq])],
           tbls₁ ++ tbls₂, [.sym nm .SCALAR, .sym nm .SCALAR], some Bi₂, stA) := by
    simp only [generate_block_parts_go, Bind.bind, Except.bind]
    rw [hstep₁]
    dsimp only
    rw [hstep₂]
    dsimp only
    simp [generate_block_parts_go]
  have hall : (pyDedup (([LExpr.sym nm .SCALAR, LExpr.sym nm .SCALAR] : List LExpr) ++
      (tbls₁ ++ tbls₂))).all (fun i => i.isSym) = true := by
    rw [List.all_eq_true]
    intro x hx
    rcases List.mem_append.mp ((mem_pyDedup _ _).mp hx) with hmem1 | hmem1
    · rcases List.mem_cons.mp hmem1 with rfl | hmem2
      · rfl
      · rcases List.mem_cons.mp hmem2 with rfl | hmem3
        · rfl
        · simp at hmem3
    · exact htbl x hmem1
  have hfull : generate_block_parts ir backend rule blockmap [bd₁, bd₂] st =
      .ok (([Stmt.sectionNode "Tensor Computation"
          (Stmts.ofList [create_nested_for_loops Bi₂.reverse
            (accum_statements backend.element_tensor ir.tensor_shape
              (gappend (gappend [] Ai₁ (float_product (.sym nm .SCALAR :: argf₁)))
                Ai₂ (float_product (.sym nm .SCALAR :: argf₂))))])
          Stmts.nil
          (pyDedup (([LExpr.sym nm .SCALAR, LExpr.sym nm .SCALAR] : List LExpr) ++
            (tbls₁ ++ tbls₂)))
          [backend.element_tensor]
          (if 1 < Bi₂.reverse.length then ["licm"] else [])],
        [Stmt.varDecl (.sym nm .SCALAR)
          (float_product [f, block_weight ir backend rule iq])]), stA) := by
    simp only [generate_block_parts, Bind.bind, Except.bind]
    rw [← hiqdef, hgo]
    dsimp only
    rw [hall]
    simp only [Bool.true_eq_false, if_false]
    rw [List.all_cons, hAsym]
    simp only [List.all_nil, Bool.and_true, Bool.true_eq_false, if_false]
    rfl
  exact ⟨nm, stA, _, hgo, hfull⟩

/-- Witness for C5 at concrete inputs: two terms with factor index 2 share
one `fw` temporary. -/
theorem C5_weight_product_caching_witness :
    ∃ (nm : String) (st' : GenState) (qp : List Stmt),
      generate_block_parts_go exampleIR exampleBackend exampleRule [[0, 1]] 1 exampleIq
          [exampleBd1, exampleBd2] [] [] [] [] none exampleStFactor =
        .ok (gappend (gappend []
               [LExpr.add (.mul (.litInt 2) (.sym "ic0" .INT)) (.litInt 0)]
               (float_product (.sym nm .SCALAR ::
                 [.arrayAccess (.sym "FE" .REAL) (.sym "ic0" .INT)])))
               [LExpr.add (.mul (.litInt 2) (.sym "ic0" .INT)) (.litInt 0)]
               (float_product (.sym nm .SCALAR ::
                 [.arrayAccess (.sym "FE" .REAL) (.sym "ic0" .INT)])),
             [Stmt.varDecl (.sym nm .SCALAR) (float_product [.sym "w0" .SCALAR,
               block_weight exampleIR exampleBackend exampleRule exampleIq])],
             [LExpr.sym "FE" .REAL] ++ [LExpr.sym "FE" .REAL],
             [.sym nm .SCALAR, .sym nm .SCALAR],
             some [⟨.sym "ic0" .INT, .litInt 2⟩], st')
      ∧ generate_block_parts exampleIR exampleBackend exampleRule [[0, 1]]
          [exampleBd1, exampleBd2] exampleStFactor =
        .ok ((qp, [Stmt.varDecl (.sym nm .SCALAR) (float_product [.sym "w0" .SCALAR,
               block_weight exampleIR exampleBackend exampleRule exampleIq])]), st') := by
  exact C5_weight_product_caching exampleIR exampleBackend exampleRule [[0, 1]]
    exampleBd1 exampleBd2 exampleStFactor 2 0 1
    ⟨exampleF, [([[0, 2]], [exampleRecordOffset0])], [⟨none, none⟩]⟩
    ⟨"piecewise", exampleOpNode, none, none⟩
    (.sym "w0" .SCALAR)
    [⟨.sym "ic0" .INT, .litInt 2⟩] [⟨.sym "ic0" .INT, .litInt 2⟩]
    [.arrayAccess (.sym "FE" .REAL) (.sym "ic0" .INT)] [.sym "FE" .REAL]
    [.arrayAccess (.sym "FE" .REAL) (.sym "ic0" .INT)] [.sym "FE" .REAL]
    [.add (.mul (.litInt 2) (.sym "ic0" .INT)) (.litInt 0)]
    [.add (.mul (.litInt 2) (.sym "ic0" .INT)) (.litInt 0)]
    (by decide) (by decide) (by decide) (by decide) rfl rfl rfl (by decide) (by decide)
    (by decide) (by decide) rfl rfl (by decide) (by decide) (by decide) (by decide)
    (by decide) (by decide) (by decide)

theorem block_data_step_ok_inv (ir : IR) (backend : Backend) (rule : QuadratureRule)
    (blockmap : BlockMap) (rank : Nat) (iq : LoopIndex) (bd : BlockDataT) (st : GenState)
    (out : List LoopIndex × List LExpr × LExpr × LExpr × List LExpr × List Stmt)
    (st' : GenState)
    (hok : block_data_step ir backend rule blockmap rank iq bd st = .ok (out, st')) :
    build_B_indices backend bd (List.range rank) = .ok out.1
    ∧ build_A_indices blockmap bd out.1 (List.range rank) = .ok out.2.1 := by
  simp only [block_data_step, Bind.bind, Except.bind, Pure.pure, Except.pure] at hok
  repeat' split at hok
  all_goals try exact Except.noConfusion hok
  all_goals injection hok with hok1
  all_goals rw [Prod.mk.injEq] at hok1
  all_goals obtain ⟨ho, hst2⟩ := hok1
  all_goals subst ho
  all_goals exact ⟨by assumption, by assumption⟩

theorem generate_block_parts_ok_inv (ir : IR) (backend : Backend) (rule : QuadratureRule)
    (blockmap : BlockMap) (blocklist : List BlockDataT) (st : GenState)
    (qp inter : List Stmt) (st' : GenState)
    (hok : generate_block_parts ir backend rule blockmap blocklist st =
      .ok ((qp, inter), st')) :
    ∃ rhs tables vars lastBi stG,
      generate_block_parts_go ir backend rule blockmap blockmap.length
        (create_quadrature_index (some rule) backend.quadrature_loop_index) blocklist
        [] [] [] [] none st = .ok (rhs, inter, tables, vars, some lastBi, stG)
      ∧ st' = stG
      ∧ qp = [Stmt.sectionNode "Tensor Computation"
          (Stmts.ofList [create_nested_for_loops lastBi.reverse
            (accum_statements backend.element_tensor ir.tensor_shape rhs)])
          Stmts.nil (pyDedup (vars ++ tables)) [backend.element_tensor]
          (if 1 < lastBi.reverse.length then ["licm"] else [])] := by
  simp only [generate_block_parts, Bind.bind, Except.bind, Pure.pure, Except.pure] at hok
  repeat' split at hok
  all_goals try exact Except.noConfusion hok
  all_goals injection hok with hok1
  all_goals rw [Prod.mk.injEq, Prod.mk.injEq] at hok1
  all_goals obtain ⟨⟨hqp, hint⟩, hstg⟩ := hok1
  all_goals subst hqp
  all_goals subst hint
  all_goals subst hstg
  · rename_i x v heqgo lastB b heqlast hin hout hcond
    refine ⟨v.1, v.2.2.1, v.2.2.2.1, b, v.2.2.2.2.2, ?_, rfl, ?_⟩
    · rw [heqgo, ← heqlast]
    · rw [if_pos hcond]
  · rename_i x v heqgo lastB b heqlast hin hout hcond
    refine ⟨v.1, v.2.2.1, v.2.2.2.1, b, v.2.2.2.2.2, ?_, rfl, ?_⟩
    · rw [heqgo, ← heqlast]
    · rw [if_neg hcond]

theorem generate_block_parts_go_lastB (ir : IR) (backend : Backend) (rule : QuadratureRule)
    (blockmap : BlockMap) (rank : Nat) (iq : LoopIndex) (blocklist : List BlockDataT) :
    ∀ (rhs : List (List LExpr × List LExpr)) (inter : List Stmt) (tables vars : List LExpr)
    (lastB : Option (List LoopIndex)) (st : GenState)
    (out : List (List LExpr × List LExpr) × List Stmt × List LExpr × List LExpr ×
      Option (List LoopIndex) × GenState),
    generate_block_parts_go ir backend rule blockmap rank iq blocklist
      rhs inter tables vars lastB st = .ok out →
    ∀ (hne : blocklist ≠ []),
    ∃ Bi, out.2.2.2.2.1 = some Bi ∧
      build_B_indices backend (blocklist.getLast hne) (List.range rank) = .ok Bi := by
  induction blocklist with
  | nil =>
      intro rhs inter tables vars lastB st out hok hne
      exact absurd rfl hne
  | cons b rest ih =>
      intro rhs inter tables vars lastB st out hok hne
      simp only [generate_block_parts_go, Bind.bind, Except.bind] at hok
      rcases hs : block_data_step ir backend rule blockmap rank iq b st with e |
          ⟨⟨Bi, Ai, Brhs, var, tbl, interN⟩, stS⟩
      · rw [hs] at hok
        exact Except.noConfusion hok
      · rw [hs] at hok
        dsimp only at hok
        rcases rest with _ | ⟨r2, rrest⟩
        · simp only [generate_block_parts_go] at hok
          injection hok with hok1
          subst hok1
          have hinv := block_data_step_ok_inv ir backend rule blockmap rank iq b st
            (Bi, Ai, Brhs, var, tbl, interN) stS hs
          exact ⟨Bi, rfl, hinv.1⟩
        · have hne2 : r2 :: rrest ≠ [] := by simp
          obtain ⟨Bi2, hout, hlast⟩ := ih _ _ _ _ _ _ _ hok hne2
          refine ⟨Bi2, hout, ?_⟩
          rw [List.getLast_cons hne2]
          exact hlast

/-- C10: the nested local-dof loops wrapping ALL accumulation statements of
a block group are built from the `B_indices` of the last block-data record
of the list, reversed so that argument slot 0 becomes the innermost loop. -/
theorem C10_loop_indices_from_last_record (ir : IR) (backend : Backend)
    (rule : QuadratureRule) (blockmap : BlockMap) (blocklist : List BlockDataT)
    (st : GenState) (qp inter : List Stmt) (st' : GenState)
    (hok : generate_block_parts ir backend rule blockmap blocklist st =
      .ok ((qp, inter), st'))
    (hne : blocklist ≠ []) :
    ∃ (Bi : List LoopIndex) (rhs : List (List LExpr × List LExpr)) (input : List LExpr),
      build_B_indices backend (blocklist.getLast hne)
        (List.range blockmap.length) = .ok Bi
      ∧ qp = [Stmt.sectionNode "Tensor Computation"
          (Stmts.ofList [create_nested_for_loops Bi.reverse
            (accum_statements backend.element_tensor ir.tensor_shape rhs)])
          Stmts.nil input [backend.element_tensor]
          (if 1 < Bi.reverse.length then ["licm"] else [])] := by
  obtain ⟨rhs, tables, vars, lastBi, stG, hgo, hstg, hqp⟩ :=
    generate_block_parts_ok_inv ir backend rule blockmap blocklist st qp inter st' hok
  obtain ⟨Bi, hout, hlast⟩ := generate_block_parts_go_lastB ir backend rule blockmap
    blockmap.length (create_quadrature_index (some rule) backend.quadrature_loop_index)
    blocklist _ _ _ _ _ _ _ hgo hne
  simp only at hout
  injection hout with hBi
  subst hBi
  exact ⟨lastBi, rhs, pyDedup (vars ++ tables), hlast, hqp⟩

/-- Witness for C10 at concrete inputs: the records have dof counts 2 and
3, and the single wrapping loop runs to 3 — the last record's extent. -/
theorem C10_loop_indices_from_last_record_witness :
    ∃ (Bi : List LoopIndex) (rhs : List (List LExpr × List LExpr)) (input : List LExpr),
      build_B_indices exampleBackend ([exampleBd1, exampleBd3].getLast (by simp))
        (List.range ([[0, 1]] : BlockMap).length) = .ok Bi
      ∧ exampleQp10 = [Stmt.sectionNode "Tensor Computation"
          (Stmts.ofList [create_nested_for_loops Bi.reverse
            (accum_statements exampleBackend.element_tensor exampleIR.tensor_shape rhs)])
          Stmts.nil input [exampleBackend.element_tensor]
          (if 1 < Bi.reverse.length then ["licm"] else [])] := by
  exact C10_loop_indices_from_last_record exampleIR exampleBackend exampleRule [[0, 1]]
    [exampleBd1, exampleBd3] exampleStFactor exampleQp10
    [.varDecl (.sym "fw0" .SCALAR) (float_product [.sym "w0" .SCALAR,
      .arrayAccess (.sym "weights0" .REAL) (.sym "iq" .INT)])]
    exampleStFw (by decide) (by simp)

theorem tensor_access_inj {A : LExpr} {shape : List Nat} {k k₂ : List LExpr}
    (h : tensor_access A shape k = tensor_access A shape k₂) : k = k₂ := by
  simp only [tensor_access, LExpr.arrayAccess.injEq, LExpr.multiIndex.injEq] at h
  exact LArgs.ofList_inj h.2.1

theorem build_B_indices_elem (backend : Backend) (bd : BlockDataT) :
    ∀ (idxs : List Nat) (Bi : List LoopIndex),
    build_B_indices backend bd idxs = .ok Bi →
    Bi.length = idxs.length ∧
    ∀ (j i : Nat), idxs[j]? = some i →
      ∃ mad, bd.ma_data[i]? = some mad ∧
        Bi[j]? = some (create_dof_index mad.tabledata (backend.argument_loop_index i)) := by
  intro idxs
  induction idxs with
  | nil =>
      intro Bi hok
      simp only [build_B_indices] at hok
      cases hok
      exact ⟨rfl, by intro j i h; simp at h⟩
  | cons i0 rest ih =>
      intro Bi hok
      simp only [build_B_indices, Bind.bind, Except.bind, Pure.pure, Except.pure] at hok
      rcases hmad : pyGet bd.ma_data i0 with e | mad
      · rw [hmad] at hok
        exact Except.noConfusion hok
      · rw [hmad] at hok
        dsimp only at hok
        rcases hrest : build_B_indices backend bd rest with e | Brest
        · rw [hrest] at hok
          exact Except.noConfusion hok
        · rw [hrest] at hok
          dsimp only at hok
          injection hok with hok1
          subst hok1
          obtain ⟨hlen, helem⟩ := ih Brest hrest
          refine ⟨by simp [hlen], ?_⟩
          intro j i hj
          rcases j with _ | j'
          · simp only [List.getElem?_cons_zero] at hj
            injection hj with hij
            subst hij
            rw [pyGet] at hmad
            rcases h0 : bd.ma_data[i0]? with _ | mad0
            · rw [h0] at hmad
              exact Except.noConfusion hmad
            · rw [h0] at hmad
              injection hmad with h2
              subst h2
              exact ⟨mad0, rfl, by simp⟩
          · simp only [List.getElem?_cons_succ] at hj
            obtain ⟨mad2, hm2, hb2⟩ := helem j' i hj
            exact ⟨mad2, hm2, by simpa using hb2⟩

theorem build_A_indices_elem (blockmap : BlockMap) (bd : BlockDataT) (Bi : List LoopIndex) :
    ∀ (idxs : List Nat) (Ai : List LExpr),
    build_A_indices blockmap bd Bi idxs = .ok Ai →
    Ai.length = idxs.length ∧
    ∀ (j i : Nat), idxs[j]? = some i →
      ∃ index mad b, Bi[i]? = some index ∧ bd.ma_data[i]? = some mad ∧
        blockmap[i]? = some b ∧
        Ai[j]? = some (if b.length = 1 then
            LExpr.add index.global_index (.litInt mad.tabledata.offset)
          else
            LExpr.add (.mul (.litInt mad.tabledata.block_size) index.global_index)
              (.litInt mad.tabledata.offset)) := by
  intro idxs
  induction idxs with
  | nil =>
      intro Ai hok
      simp only [build_A_indices] at hok
      cases hok
      exact ⟨rfl, by intro j i h; simp at h⟩
  | cons i0 rest ih =>
      intro Ai hok
      simp only [build_A_indices, Bind.bind, Except.bind, Pure.pure, Except.pure] at hok
      rcases hidx : pyGet Bi i0 with e | index
      · rw [hidx] at hok
        exact Except.noConfusion hok
      rw [hidx] at hok
      dsimp only at hok
      rcases hmad : pyGet bd.ma_data i0 with e | mad
      · rw [hmad] at hok
        exact Except.noConfusion hok
      rw [hmad] at hok
      dsimp only at hok
      rcases hb : pyGet blockmap i0 with e | b
      · rw [hb] at hok
        exact Except.noConfusion hok
      rw [hb] at hok
      dsimp only at hok
      rcases hrest : build_A_indices blockmap bd Bi rest with e | Arest
      · rw [hrest] at hok
        by_cases hb1 : b.length = 1 <;> simp only [hb1, if_true, if_false] at hok <;>
          exact Except.noConfusion hok
      rw [hrest] at hok
      have hpy : ∀ {α : Type} (l : List α) (i : Nat) (x : α),
          pyGet l i = .ok x → l[i]? = some x := by
        intro α l i x hp
        rw [pyGet] at hp
        rcases hli : l[i]? with _ | y
        · rw [hli] at hp
          exact Except.noConfusion hp
        · rw [hli] at hp
          injection hp with hxy
          rw [hxy]
      have hlen_rest := (ih Arest hrest).1
      have helem_rest := (ih Arest hrest).2
      by_cases hb1 : b.length = 1 <;>
        simp only [hb1, if_true, if_false] at hok <;>
        [skip; skip] <;>
        (injection hok with hok1; subst hok1) <;>
        refine ⟨by simp [hlen_rest], ?_⟩ <;>
        intro j i hj <;>
        rcases j with _ | j'
      · simp only [List.getElem?_cons_zero] at hj
        injection hj with hij
        subst hij
        exact ⟨index, mad, b, hpy _ _ _ hidx, hpy _ _ _ hmad, hpy _ _ _ hb,
          by simp [hb1]⟩
      · simp only [List.getElem?_cons_succ] at hj
        obtain ⟨ix, md, bb, h1, h2, h3, h4⟩ := helem_rest j' i hj
        exact ⟨ix, md, bb, h1, h2, h3, by simpa using h4⟩
      · simp only [List.getElem?_cons_zero] at hj
        injection hj with hij
        subst hij
        exact ⟨index, mad, b, hpy _ _ _ hidx, hpy _ _ _ hmad, hpy _ _ _ hb,
          by simp [hb1]⟩
      · simp only [List.getElem?_cons_succ] at hj
        obtain ⟨ix, md, bb, h1, h2, h3, h4⟩ := helem_rest j' i hj
        exact ⟨ix, md, bb, h1, h2, h3, by simpa using h4⟩

theorem build_A_eq_spec (backend : Backend) (blockmap : BlockMap) (bd : BlockDataT)
    (Bi : List LoopIndex) (Ai : List LExpr)
    (hB : build_B_indices backend bd (List.range blockmap.length) = .ok Bi)
    (hA : build_A_indices blockmap bd Bi (List.range blockmap.length) = .ok Ai) :
    Ai = spec_A_indices backend blockmap bd := by
  obtain ⟨hBlen, hBelem⟩ := build_B_indices_elem backend bd _ Bi hB
  obtain ⟨hAlen, hAelem⟩ := build_A_indices_elem blockmap bd Bi _ Ai hA
  apply List.ext_getElem?
  intro j
  by_cases hj : j < blockmap.length
  · have hrange : (List.range blockmap.length)[j]? = some j := by
      simp [List.getElem?_range hj]
    obtain ⟨index, mad, b, hBi, hmad, hbm, hAj⟩ := hAelem j j hrange
    obtain ⟨mad2, hmad2, hBj⟩ := hBelem j j hrange
    have hmm : mad2 = mad := by
      rw [hmad] at hmad2
      injection hmad2 with h
      exact h.symm
    subst hmm
    have hgi : index = create_dof_index mad2.tabledata (backend.argument_loop_index j) := by
      rw [hBi] at hBj
      exact Option.some.inj hBj
    have hspec : (spec_A_indices backend blockmap bd)[j]? =
        some (if b.length = 1 then
            LExpr.add (backend.argument_loop_index j) (.litInt mad2.tabledata.offset)
          else
            LExpr.add (.mul (.litInt mad2.tabledata.block_size) (backend.argument_loop_index j))
              (.litInt mad2.tabledata.offset)) := by
      by_cases hb1 : b.length = 1 <;>
        simp [spec_A_indices, hrange, hmad, hbm, hb1]
    rw [hAj, hspec, hgi]
    simp [create_dof_index]
  · have hAlen2 : Ai.length = blockmap.length := by simpa using hAlen
    have h1 : Ai[j]? = none := by
      rw [List.getElem?_eq_none]
      omega
    have h2 : (spec_A_indices backend blockmap bd)[j]? = none := by
      rw [List.getElem?_eq_none]
      simp only [spec_A_indices, List.length_map, List.length_range]
      omega
    rw [h1, h2]

theorem generate_block_parts_go_pairs (ir : IR) (backend : Backend) (rule : QuadratureRule)
    (blockmap : BlockMap) (iq : LoopIndex) :
    ∀ (blocklist : List BlockDataT) (gs : List (List LExpr × List LExpr))
    (inter : List Stmt) (tables vars : List LExpr) (lastB : Option (List LoopIndex))
    (st : GenState)
    (out : List (List LExpr × List LExpr) × List Stmt × List LExpr × List LExpr ×
      Option (List LoopIndex) × GenState),
    generate_block_parts_go ir backend rule blockmap blockmap.length iq blocklist
      gs inter tables vars lastB st = .ok out →
    ∃ pairs : List (List LExpr × LExpr),
      out.1 = pairs.foldl (fun acc p => gappend acc p.1 p.2) gs
      ∧ pairs.length = blocklist.length
      ∧ ∀ (j : Nat) (bd : BlockDataT), blocklist[j]? = some bd →
          ∃ r, pairs[j]? = some (spec_A_indices backend blockmap bd, r) := by
  intro blocklist
  induction blocklist with
  | nil =>
      intro gs inter tables vars lastB st out hok
      simp only [generate_block_parts_go] at hok
      injection hok with hok1
      subst hok1
      exact ⟨[], rfl, rfl, by intro j bd h; simp at h⟩
  | cons b rest ih =>
      intro gs inter tables vars lastB st out hok
      simp only [generate_block_parts_go, Bind.bind, Except.bind] at hok
      rcases hs : block_data_step ir backend rule blockmap blockmap.length iq b st with e |
          ⟨⟨Bi, Ai, Brhs, var, tbl, interN⟩, stS⟩
      · rw [hs] at hok
        exact Except.noConfusion hok
      · rw [hs] at hok
        dsimp only at hok
        obtain ⟨pairs, hout, hlen, helem⟩ := ih _ _ _ _ _ _ _ hok
        have hinv := block_data_step_ok_inv ir backend rule blockmap blockmap.length iq b st
          (Bi, Ai, Brhs, var, tbl, interN) stS hs
        have hspec : Ai = spec_A_indices backend blockmap b :=
          build_A_eq_spec backend blockmap b Bi Ai hinv.1 hinv.2
        refine ⟨(Ai, Brhs) :: pairs, by simpa using hout, by simp [hlen], ?_⟩
        intro j bd hj
        rcases j with _ | j'
        · simp only [List.getElem?_cons_zero] at hj
          injection hj with hbd
          subst hbd
          exact ⟨Brhs, by simp [hspec]⟩
        · simp only [List.getElem?_cons_succ] at hj
          obtain ⟨r, hr⟩ := helem j' bd hj
          exact ⟨r, by simpa using hr⟩

theorem gappend_keys_mem [DecidableEq κ] (l : List (κ × List β)) (k a : κ) (v : β) :
    a ∈ (gappend l k v).map Prod.fst ↔ a ∈ l.map Prod.fst ∨ a = k := by
  induction l with
  | nil => simp [gappend]
  | cons p rest ih =>
      obtain ⟨k', vs⟩ := p
      by_cases hk : k' = k
      · subst hk
        simp [gappend]
        tauto
      · simp only [gappend, hk, if_false, List.map_cons, List.mem_cons, ih]
        tauto

theorem gappend_keys_nodup [DecidableEq κ] (l : List (κ × List β)) (k : κ) (v : β)
    (h : (l.map Prod.fst).Nodup) : ((gappend l k v).map Prod.fst).Nodup := by
  induction l with
  | nil => simp [gappend]
  | cons p rest ih =>
      obtain ⟨k', vs⟩ := p
      simp only [List.map_cons, List.nodup_cons] at h
      by_cases hk : k' = k
      · subst hk
        simp only [gappend, if_true, List.map_cons, List.nodup_cons]
        exact h
      · simp only [gappend, hk, if_false, List.map_cons, List.nodup_cons]
        refine ⟨?_, ih h.2⟩
        rw [gappend_keys_mem]
        rintro (hmem | rfl)
        · exact h.1 hmem
        · exact hk rfl

theorem groupPairs_acc_keys_nodup (ps : List (List LExpr × LExpr)) :
    ∀ (gs : List (List LExpr × List LExpr)), ((gs.map Prod.fst).Nodup) →
    (((ps.foldl (fun acc p => gappend acc p.1 p.2) gs).map Prod.fst)).Nodup := by
  induction ps with
  | nil => intro gs h; exact h
  | cons p rest ih =>
      intro gs h
      exact ih _ (gappend_keys_nodup gs p.1 p.2 h)

theorem accum_filter_not_mem (A : LExpr) (shape : List Nat) (k : List LExpr)
    (G : List (List LExpr × List LExpr)) (h : k ∉ G.map Prod.fst) :
    (accum_statements A shape G).filter (targets A shape k) = [] := by
  induction G with
  | nil => simp [accum_statements]
  | cons g rest ih =>
      obtain ⟨k', vs⟩ := g
      simp only [List.map_cons, List.mem_cons, not_or] at h
      have hk : k' ≠ k := fun hh => h.1 hh.symm
      simp only [accum_statements, List.flatMap_cons, List.filter_append]
      rw [List.filter_map]
      have hcomp : ((targets A shape k) ∘ fun expression =>
          Stmt.assignAdd (tensor_access A shape k') expression) = fun _ => false := by
        funext e
        simp only [Function.comp_apply, targets]
        rw [decide_eq_false]
        intro hc
        exact hk (tensor_access_inj hc)
      rw [hcomp]
      simp only [List.filter_false, List.map_nil, List.nil_append]
      exact ih h.2

theorem accum_filter_key (A : LExpr) (shape : List Nat) (k : List LExpr)
    (G : List (List LExpr × List LExpr)) (hnd : (G.map Prod.fst).Nodup) :
    (accum_statements A shape G).filter (targets A shape k) =
      ((alookup G k).getD []).map (fun e => Stmt.assignAdd (tensor_access A shape k) e) := by
  induction G with
  | nil => simp [accum_statements, alookup]
  | cons g rest ih =>
      obtain ⟨k', vs⟩ := g
      simp only [List.map_cons, List.nodup_cons] at hnd
      simp only [accum_statements, List.flatMap_cons, List.filter_append]
      by_cases hk : k' = k
      · subst hk
        have hvs : (vs.map (fun e => Stmt.assignAdd (tensor_access A shape k') e)).filter
            (targets A shape k') = vs.map (fun e => Stmt.assignAdd (tensor_access A shape k') e) := by
          rw [List.filter_map]
          have hcomp : ((targets A shape k') ∘ fun e =>
              Stmt.assignAdd (tensor_access A shape k') e) = fun _ => true := by
            funext e
            simp [Function.comp_apply, targets]
          rw [hcomp]
          simp
        rw [hvs]
        have hrest : (accum_statements A shape rest).filter (targets A shape k') = [] :=
          accum_filter_not_mem A shape k' rest hnd.1
        simp only [accum_statements] at hrest
        rw [hrest]
        simp [alookup, accum_statements]
      · have hvs : (vs.map (fun e => Stmt.assignAdd (tensor_access A shape k') e)).filter
            (targets A shape k) = [] := by
          rw [List.filter_map]
          have hcomp : ((targets A shape k) ∘ fun e =>
              Stmt.assignAdd (tensor_access A shape k') e) = fun _ => false := by
            funext e
            simp only [Function.comp_apply, targets]
            rw [decide_eq_false]
            intro hc
            exact hk (tensor_access_inj hc)
          rw [hcomp]
          simp
        rw [hvs]
        simp only [List.nil_append, alookup, hk, if_false]
        have := ih hnd.2
        simp only [accum_statements] at this
        exact this

theorem alookup_groupPairs_acc (ps : List (List LExpr × LExpr)) :
    ∀ (gs : List (List LExpr × List LExpr)) (k : List LExpr),
    alookup (ps.foldl (fun acc p => gappend acc p.1 p.2) gs) k =
      match alookup gs k with
      | some l => some (l ++ (ps.filter (fun p => p.1 = k)).map Prod.snd)
      | none =>
          if (ps.filter (fun p => p.1 = k)).isEmpty then none
          else some ((ps.filter (fun p => p.1 = k)).map Prod.snd) := by
  induction ps with
  | nil =>
      intro gs k
      simp only [List.foldl_nil, List.filter_nil, List.map_nil, List.isEmpty_nil, if_true]
      cases alookup gs k <;> simp
  | cons p rest ih =>
      intro gs k
      obtain ⟨pk, pv⟩ := p
      simp only [List.foldl_cons]
      rw [ih (gappend gs pk pv) k]
      by_cases hpk : pk = k
      · subst hpk
        rw [alookup_gappend_self]
        simp only [List.filter_cons, decide_eq_true_eq, if_pos rfl, List.map_cons]
        cases hgs : alookup gs pk with
        | none => simp
        | some l => simp
      · rw [alookup_gappend_other gs pv hpk]
        have hfil : (((pk, pv) :: rest).filter (fun p => p.1 = k)) =
            rest.filter (fun p => p.1 = k) := by
          simp [List.filter_cons, hpk]
        rw [hfil]

theorem accum_groupPairs_filter (A : LExpr) (shape : List Nat) (k : List LExpr)
    (ps : List (List LExpr × LExpr)) :
    (accum_statements A shape (groupPairs ps)).filter (targets A shape k) =
      (ps.filter (fun p => p.1 = k)).map
        (fun p => Stmt.assignAdd (tensor_access A shape k) p.2) := by
  have hnd := groupPairs_acc_keys_nodup ps [] (by simp)
  rw [groupPairs, accum_filter_key A shape k _ hnd, alookup_groupPairs_acc ps [] k]
  simp only [alookup]
  by_cases he : ((ps.filter (fun p => p.1 = k)).isEmpty) = true
  · rw [if_pos he]
    rw [List.isEmpty_iff] at he
    simp [he]
  · rw [if_neg he]
    simp [List.map_map]

/-- C4: the accumulation body of a successful `generate_block_parts` run is
exactly the per-term `(target, rhs)` pairs grouped by target in insertion
order — one `AssignAdd` per term, with terms of equal target emitted
consecutively under one shared index in original term order and never
algebraically merged — and every term's target tuple follows the
slot formula `localIndex + offset` (dofblock length 1) or
`block_size * localIndex + offset`. -/
theorem C4_accumulation_ordering (ir : IR) (backend : Backend) (rule : QuadratureRule)
    (blockmap : BlockMap) (blocklist : List BlockDataT) (st : GenState)
    (qp inter : List Stmt) (st' : GenState)
    (hok : generate_block_parts ir backend rule blockmap blocklist st =
      .ok ((qp, inter), st')) :
    ∃ (pairs : List (List LExpr × LExpr)) (Bi : List LoopIndex) (input : List LExpr),
      pairs.length = blocklist.length
      ∧ (∀ (j : Nat) (bd : BlockDataT), blocklist[j]? = some bd →
          ∃ r, pairs[j]? = some (spec_A_indices backend blockmap bd, r))
      ∧ qp = [Stmt.sectionNode "Tensor Computation"
          (Stmts.ofList [create_nested_for_loops Bi.reverse
            (accum_statements backend.element_tensor ir.tensor_shape (groupPairs pairs))])
          Stmts.nil input [backend.element_tensor]
          (if 1 < Bi.reverse.length then ["licm"] else [])]
      ∧ ∀ k, (accum_statements backend.element_tensor ir.tensor_shape
            (groupPairs pairs)).filter (targets backend.element_tensor ir.tensor_shape k) =
          (pairs.filter (fun p => p.1 = k)).map
            (fun p => Stmt.assignAdd (tensor_access backend.element_tensor ir.tensor_shape k)
              p.2) := by
  obtain ⟨rhs, tables, vars, lastBi, stG, hgo, hstg, hqp⟩ :=
    generate_block_parts_ok_inv ir backend rule blockmap blocklist st qp inter st' hok
  obtain ⟨pairs, hrhs, hlen, helem⟩ := generate_block_parts_go_pairs ir backend rule blockmap
    _ blocklist [] _ _ _ _ _ _ hgo
  simp only at hrhs
  refine ⟨pairs, lastBi, pyDedup (vars ++ tables), hlen, helem, ?_,
    fun k => accum_groupPairs_filter backend.element_tensor ir.tensor_shape k pairs⟩
  rw [hqp, hrhs]
  rfl

/-- Witness for C4 at concrete inputs: a successful two-record run whose
section contains one AssignAdd per term, grouped by the spec's target
formula. -/
theorem C4_accumulation_ordering_witness :
    ∃ (pairs : List (List LExpr × LExpr)) (Bi : List LoopIndex) (input : List LExpr),
      pairs.length = ([exampleBd1, exampleBd3] : List BlockDataT).length
      ∧ (∀ (j : Nat) (bd : BlockDataT),
          ([exampleBd1, exampleBd3] : List BlockDataT)[j]? = some bd →
          ∃ r, pairs[j]? = some (spec_A_indices exampleBackend [[0, 1]] bd, r))
      ∧ exampleQp10 = [Stmt.sectionNode "Tensor Computation"
          (Stmts.ofList [create_nested_for_loops Bi.reverse
            (accum_statements exampleBackend.element_tensor exampleIR.tensor_shape
              (groupPairs pairs))])
          Stmts.nil input [exampleBackend.element_tensor]
          (if 1 < Bi.reverse.length then ["licm"] else [])]
      ∧ ∀ k, (accum_statements exampleBackend.element_tensor exampleIR.tensor_shape
            (groupPairs pairs)).filter
              (targets exampleBackend.element_tensor exampleIR.tensor_shape k) =
          (pairs.filter (fun p => p.1 = k)).map
            (fun p => Stmt.assignAdd
              (tensor_access exampleBackend.element_tensor exampleIR.tensor_shape k) p.2) :=
  C4_accumulation_ordering exampleIR exampleBackend exampleRule [[0, 1]]
    [exampleBd1, exampleBd3] exampleStFactor exampleQp10
    [.varDecl (.sym "fw0" .SCALAR) (float_product [.sym "w0" .SCALAR,
      .arrayAccess (.sym "weights0" .REAL) (.sym "iq" .INT)])]
    exampleStFw (by decide)

theorem process_rules_eq_chunks (ir : IR) (backend : Backend) :
    ∀ (rules : List (QuadratureRule × IntegrandData)) (pre quad : List Stmt)
      (st : GenState),
    process_rules ir backend rules pre quad st =
      (spec_rule_chunks ir backend rules st).map
        (fun r => (pre ++ r.1.flatMap Prod.fst, quad ++ r.1.flatMap Prod.snd, r.2)) := by
  intro rules
  induction rules with
  | nil =>
      intro pre quad st
      simp [process_rules, spec_rule_chunks, Except.map]
  | cons p rest ih =>
      intro pre quad st
      obtain ⟨rule, d⟩ := p
      simp only [process_rules, spec_rule_chunks, Bind.bind, Except.bind]
      cases hp : generate_piecewise_partition ir backend rule st with
      | error e => simp [Except.map]
      | ok v =>
          obtain ⟨defs, ints, st1⟩ := v
          dsimp only
          cases hq : generate_quadrature_loop ir backend rule st1 with
          | error e => simp [Except.map]
          | ok w =>
              obtain ⟨quadc, st2⟩ := w
              dsimp only
              rw [ih]
              cases hr : spec_rule_chunks ir backend rest st2 with
              | error e => simp [Except.map]
              | ok r =>
                  obtain ⟨chunks, st3⟩ := r
                  simp [Except.map, List.append_assoc]

/-- C8: the statement list returned by `generate()` is the concatenation,
in this fixed order, of quadrature tables, element tables, geometry
tables, all piecewise pre-loop parts, and all quadrature-loop parts, the
per-rule parts being produced by one `generate_piecewise_partition` and
one `generate_quadrature_loop` call per rule in the order of
`ir.integrand`; the rule iteration order comes from a dict built outside
this module, presented ascending by rule identifier. -/
theorem C8_generate_output_ordering (ir : IR) (backend : Backend) (st : GenState)
    (hsorted : List.Pairwise (fun a b => a.1.id ≤ b.1.id) ir.integrand) :
    generate ir backend st = spec_generate ir backend st
    ∧ List.Pairwise (· ≤ ·) (ir.integrand.map fun p => p.1.id) := by
  refine ⟨?_, List.pairwise_map.mpr hsorted⟩
  simp only [generate, spec_generate, Bind.bind, Except.bind]
  split
  · rfl
  · rw [process_rules_eq_chunks]
    cases hr : spec_rule_chunks ir backend ir.integrand (generate_element_tables ir st).2 with
    | error e => rfl
    | ok r =>
        obtain ⟨chunks, st2⟩ := r
        simp [Except.map]

/-- Witness for C8 at concrete inputs: the single-rule example IR, whose
rule list is trivially ascending. -/
theorem C8_generate_output_ordering_witness :
    generate exampleIR exampleBackend (init_state exampleIR) =
      spec_generate exampleIR exampleBackend (init_state exampleIR)
    ∧ List.Pairwise (· ≤ ·) (exampleIR.integrand.map fun p => p.1.id) :=
  C8_generate_output_ordering exampleIR exampleBackend (init_state exampleIR)
    (by simp [exampleIR])

end FFCxGen
